import Mathlib

/-!
Verification development for the storage stack of the ipodpatcher /
ipodloader2 bootloader: a shallow embedding of the ATA block driver's
block cache and read paths (src/ipodloader2/ata2.c) and of the FAT16/32
read-only filesystem driver (src/ipodloader2/fat32.c), together with
theorems about the cache invariants, read alignment, seek/read/close
semantics, BPB validation and long-filename assembly.

Machine integers are modelled as `Nat` with explicit `% 2^32` (or
`% 2^16`, `% 2^8`) wherever the C code's fixed-width arithmetic can wrap.
The contents of a 512-byte block is abstracted as a single `Nat` (block
contents never influence control flow in the driver, only sector numbers
do), and the disk is a total function from sector numbers to contents.
-/

namespace Ipod

/-- 2^32, the modulus of the C `uint32` arithmetic. -/
def U32 : Nat := 4294967296

/-- 2^16, the modulus of the C `uint16` arithmetic. -/
def U16 : Nat := 65536

/-- `CACHE_NUMBLOCKS` from ata2.c: the cache has 16 slots of 512 bytes. -/
def CACHE_NUMBLOCKS : Nat := 16

/-- The `~0` (all ones) uint32 sentinel marking an invalid cache slot
(`clear_cache` in ata2.c stores `~0` into every `cacheaddr` slot). -/
def CACHE_SENTINEL : Nat := 4294967295

/-- The drive configuration fixed by `ata_identify` (ata2.c, `ATAdev`):
LBA48 capability and the physical-sector alignment exponent. -/
structure AtaCfg where
  lba48 : Bool
  alignment_log2 : Nat

/-- The mutable cache state of ata2.c: `cacheaddr` maps each slot index to
the sector it holds (or `CACHE_SENTINEL`), `cachetick` to its recency
tick, `cachedata` to the (abstracted) 512-byte payload, and `cacheticks`
is the global tick counter.  The maps are total functions on `Nat`; only
indices `< CACHE_NUMBLOCKS` are ever touched. -/
structure AtaState where
  cacheaddr : Nat → Nat
  cachetick : Nat → Nat
  cachedata : Nat → Nat
  cacheticks : Nat

/-- `clear_cache` of ata2.c: every tick 0, every address the sentinel,
tick counter 0.  (`cachedata` comes from `mlc_malloc` and is never read
before being filled; it is modelled as all zeroes.) -/
def clear_cache : AtaState :=
  { cacheaddr := fun _ => CACHE_SENTINEL
    cachetick := fun _ => 0
    cachedata := fun _ => 0
    cacheticks := 0 }

/-- `find_cache_entry` of ata2.c: reject the sentinel sector outright,
otherwise linearly scan the 16 slots for the sector; on a hit, store
`++cacheticks` into that slot's tick (refreshing its recency) and return
the slot index. -/
def find_cache_entry (sector : Nat) (st : AtaState) : Option Nat × AtaState :=
  if sector = CACHE_SENTINEL then
    (none, st)
  else
    match (List.range CACHE_NUMBLOCKS).find? (fun i => st.cacheaddr i == sector) with
    | some i =>
        (some i,
          { st with
            cachetick := Function.update st.cachetick i (st.cacheticks + 1)
            cacheticks := st.cacheticks + 1 })
    | none => (none, st)

/-- The LRU scan inside `create_cache_entry` of ata2.c: start from slot 0
and replace the candidate whenever a strictly smaller tick is found, so
the result is the first slot holding the minimal tick. -/
def lru_scan (tick : Nat → Nat) : Nat :=
  (List.range CACHE_NUMBLOCKS).foldl (fun best i => if tick i < tick best then i else best) 0

/-- `create_cache_entry` of ata2.c: reuse the slot already holding the
sector if there is one (note `find_cache_entry` then also refreshes its
tick and bumps `cacheticks`), otherwise evict the slot found by the LRU
scan; in both cases store the sector number and the current `cacheticks`
into the chosen slot. -/
def create_cache_entry (sector : Nat) (st : AtaState) : Nat × AtaState :=
  match find_cache_entry sector st with
  | (some i, st1) =>
      (i, { st1 with
            cacheaddr := Function.update st1.cacheaddr i sector
            cachetick := Function.update st1.cachetick i st1.cacheticks })
  | (none, st1) =>
      let cacheindex := lru_scan st1.cachetick
      (cacheindex,
        { st1 with
          cacheaddr := Function.update st1.cacheaddr cacheindex sector
          cachetick := Function.update st1.cachetick cacheindex st1.cacheticks })

/-- `ata_send_read_command` of ata2.c, reduced to the observable command
it issues: the pair (starting LBA, block count) as truncated by the
`uint32 lba` and `uint16 count` parameter types. -/
def ata_send_read_command (lba count : Nat) : Nat × Nat :=
  (lba % U32, count % U16)

/-- The cached fill loop of `ata_readblock2` (ata2.c lines 784-795): for
each sector `i` of the aligned run, create a cache entry, read the data
from the drive straight into that cache slot, and when `i` is the sector
the caller asked for also copy it to the destination. `n` is the number
of remaining iterations, `i` the current sector. -/
def cache_fill_loop (disk : Nat → Nat) (sector dst i : Nat) (st : AtaState) :
    Nat → Nat × AtaState
  | 0 => (dst, st)
  | Nat.succ m =>
      let p := create_cache_entry i st
      let st2 := { p.2 with cachedata := Function.update p.2.cachedata p.1 (disk i) }
      let dst2 := if i = sector then disk i else dst
      cache_fill_loop disk sector dst2 (i + 1) st2 m

/-- The uncached loop of `ata_readblock2` (ata2.c lines 803-812): read
each sector of the aligned run, keeping only the requested one. -/
def uncached_read_loop (disk : Nat → Nat) (sector dst i : Nat) : Nat → Nat
  | 0 => dst
  | Nat.succ m =>
      uncached_read_loop disk sector (if i = sector then disk i else dst) (i + 1) m

/-- The outcome of one `ata_readblock2` call: the destination block's
contents afterwards, the new cache state, and the list of read commands
issued to the hardware. -/
structure ReadResult where
  dst : Nat
  st : AtaState
  cmds : List (Nat × Nat)

/-- `uint16 read_size = (1u << ATAdev.alignment_log2)` of ata2.c. -/
def aligned_read_size (k : Nat) : Nat :=
  (1 <<< k) % U16

/-- `sector & ~((1u << alignment_log2) - 1)` of ata2.c, the complement
taken in uint32. -/
def aligned_base (sector k : Nat) : Nat :=
  sector &&& ((U32 - 1) - ((1 <<< k) % U32 - 1))

/-- The number of iterations of the transfer loops of `ata_readblock2`:
the C loop runs `i` from `sector_to_read` while `i < sector_to_read +
read_size` with a uint32 bound, so when `sector_to_read + read_size`
wraps to 0 (the topmost aligned run of the address space) it performs
zero iterations, and otherwise `read_size` iterations. -/
def aligned_iters (sector k : Nat) : Nat :=
  if U32 ≤ aligned_base sector k + aligned_read_size k then 0 else aligned_read_size k

/-- The post-cache-check portion of `ata_readblock2` (ata2.c lines
761-815): a sector beyond the LBA28 limit on a non-LBA48 drive is a
fatal halt (modelled `none`); else the sector is rounded down to the
`2^alignment_log2` boundary, one read command for the whole aligned run
is issued, and the run is transferred by the cached or uncached loop. -/
def ata_readblock2_hw (disk : Nat → Nat) (cfg : AtaCfg) (dst sector : Nat)
    (useCache : Bool) (st0 : AtaState) : Option ReadResult :=
  if cfg.lba48 = false ∧ 268435455 < sector then
    none
  else
    let read_size := aligned_read_size cfg.alignment_log2
    let sector_to_read := aligned_base sector cfg.alignment_log2
    let cmds := [ata_send_read_command sector_to_read read_size]
    let iters := aligned_iters sector cfg.alignment_log2
    if useCache then
      let p := cache_fill_loop disk sector dst sector_to_read st0 iters
      some { dst := p.1, st := { p.2 with cacheticks := p.2.cacheticks + 1 }, cmds := cmds }
    else
      some { dst := uncached_read_loop disk sector dst sector_to_read iters, st := st0, cmds := cmds }

/-- `ata_readblock2` of ata2.c.  Cached mode first tries the cache and
returns without touching hardware on a hit; everything else is the
hardware path `ata_readblock2_hw`. -/
def ata_readblock2 (disk : Nat → Nat) (cfg : AtaCfg) (dst sector : Nat)
    (useCache : Bool) (st : AtaState) : Option ReadResult :=
  if useCache then
    match find_cache_entry sector st with
    | (some i, st1) => some { dst := st1.cachedata i, st := st1, cmds := [] }
    | (none, st1) => ata_readblock2_hw disk cfg dst sector useCache st1
  else
    ata_readblock2_hw disk cfg dst sector useCache st

/-- `ata_readblock` of ata2.c: a cached single-block read. -/
def ata_readblock (disk : Nat → Nat) (cfg : AtaCfg) (dst sector : Nat) (st : AtaState) :
    Option ReadResult :=
  ata_readblock2 disk cfg dst sector true st

/-- The loop shared by `ata_readblocks` and `ata_readblocks_uncached` of
ata2.c: one `ata_readblock2` per block, the sector argument incremented
in uint32.  Returns the blocks read, the final state, and all commands
issued. -/
def ata_readblocks_loop (disk : Nat → Nat) (cfg : AtaCfg) (sector count : Nat)
    (useCache : Bool) (st : AtaState) : Option (List Nat × AtaState × List (Nat × Nat)) :=
  match count with
  | 0 => some ([], st, [])
  | Nat.succ m =>
      match ata_readblock2 disk cfg 0 sector useCache st with
      | none => none
      | some r =>
          match ata_readblocks_loop disk cfg ((sector + 1) % U32) m useCache r.st with
          | none => none
          | some q => some (r.dst :: q.1, q.2.1, r.cmds ++ q.2.2)

/-- `ata_readblocks` of ata2.c: cached multi-block read. -/
def ata_readblocks (disk : Nat → Nat) (cfg : AtaCfg) (sector count : Nat) (st : AtaState) :
    Option (List Nat × AtaState × List (Nat × Nat)) :=
  ata_readblocks_loop disk cfg sector count true st

/-- `ata_readblocks_uncached` of ata2.c: cache-bypassing multi-block read. -/
def ata_readblocks_uncached (disk : Nat → Nat) (cfg : AtaCfg) (sector count : Nat)
    (st : AtaState) : Option (List Nat × AtaState × List (Nat × Nat)) :=
  ata_readblocks_loop disk cfg sector count false st

/-- The read commands issued by a single-block call (empty for a fatal
halt, which issues none). -/
def readCmds (r : Option ReadResult) : List (Nat × Nat) :=
  match r with
  | some r => r.cmds
  | none => []

/-- The read commands issued by a multi-block call. -/
def readsCmds (r : Option (List Nat × AtaState × List (Nat × Nat))) : List (Nat × Nat) :=
  match r with
  | some q => q.2.2
  | none => []

/-- Runs a sequence of cached single-block reads (the destination buffer
contents are irrelevant to the cache state), returning the final cache
state unless some read halted fatally. -/
def runReads (disk : Nat → Nat) (cfg : AtaCfg) (reqs : List Nat) (st : AtaState) :
    Option AtaState :=
  match reqs with
  | [] => some st
  | s :: rest =>
      match ata_readblock2 disk cfg 0 s true st with
      | none => none
      | some r => runReads disk cfg rest r.st

/-- At most one cache slot maps to any given valid (non-sentinel) sector
number. -/
def uniqueAddrs (st : AtaState) : Prop :=
  ∀ i j, i < CACHE_NUMBLOCKS → j < CACHE_NUMBLOCKS →
    st.cacheaddr i ≠ CACHE_SENTINEL → st.cacheaddr i = st.cacheaddr j → i = j

/-- Two consecutive cached reads of the same sector: the observable
outcome (first data, first commands, second data, second commands) when
both reads complete without a fatal halt. -/
def twoReads (disk : Nat → Nat) (cfg : AtaCfg) (dst dst2 sector : Nat) (st : AtaState) :
    Option (Nat × List (Nat × Nat) × Nat × List (Nat × Nat)) :=
  match ata_readblock2 disk cfg dst sector true st with
  | none => none
  | some r =>
      match ata_readblock2 disk cfg dst2 sector true r.st with
      | none => none
      | some r2 => some (r.dst, r.cmds, r2.dst, r2.cmds)

/-- The cache state reached by a run of reads (the fresh cache when the
run halted fatally). -/
def runState (o : Option AtaState) : AtaState :=
  o.getD clear_cache

/-- The tick counter after a read (a default for a fatal halt). -/
def ticksAfter (o : Option ReadResult) (dflt : Nat) : Nat :=
  match o with
  | some r => r.st.cacheticks
  | none => dflt

/-! ## Device identification checksum (ata2.c, `ata_identify`) -/

/-- The IDENTIFY response is 256 16-bit words; `word buff i` is word `i`
as the C `uint16` read from the data register. -/
def identify_word (buff : Nat → Nat) (i : Nat) : Nat :=
  buff i % U16

/-- The `calculated_sum` loop of `ata_identify` (ata2.c lines 371-375):
a `uint8` accumulator to which the low byte and then the high byte of
each of the 256 words is added, each addition wrapping mod 256. -/
def identify_sum (buff : Nat → Nat) : Nat :=
  (List.range 256).foldl
    (fun s i => ((s + identify_word buff i % 256) % 256 + identify_word buff i / 256) % 256) 0

/-- The mathematical sum of all 512 bytes of the IDENTIFY response (the
checksum rule of the ATA specification: this total must be 0 mod 256 when
a checksum is present). -/
def identify_total (buff : Nat → Nat) : Nat :=
  ((List.range 256).map (fun i => identify_word buff i % 256 + identify_word buff i / 256)).sum

/-- The checksum gate of `ata_identify` (ata2.c lines 370-391): when the
low byte of word 255 is the signature 0xA5, a nonzero byte sum is a fatal
halt (`none`); otherwise identification proceeds (`some ()`). -/
def ata_identify_gate (buff : Nat → Nat) : Option Unit :=
  if identify_word buff 255 % 256 = 165 then
    if identify_sum buff ≠ 0 then none else some ()
  else
    some ()

/-! ## FAT driver: file handles, read, seek, tell, close (fat32.c) -/

/-- `MAX_HANDLES` of fat32.c. -/
def MAX_HANDLES : Nat := 10

/-- `fat32_file` (fat32.h): starting cluster, open flag, current byte
position and total byte length; `position` and `length` are `uint32`. -/
structure fat32_file where
  cluster : Nat
  opened : Bool
  position : Nat
  length : Nat

/-- The handle-table portion of the `fat_t` singleton of fat32.c:
`filehandles` maps descriptor numbers to their (heap-allocated, never
freed) file records, `numHandles` counts the occupied slots.  The
geometry fields of `fat_t` are carried separately (see `FatInit`); they
do not participate in the handle-table claims. -/
structure fat_t where
  filehandles : Nat → fat32_file
  numHandles : Nat

/-- `fat32_open`'s handle-table insertion (fat32.c lines 426-436), with
the directory lookup abstracted into the `file` argument: a found file is
appended at index `numHandles` unless the table is full (`-1`). -/
def fat32_open_insert (fs : fat_t) (file : fat32_file) : Int × fat_t :=
  if fs.numHandles < MAX_HANDLES then
    ((fs.numHandles : Int),
      { fs with
        filehandles := Function.update fs.filehandles fs.numHandles file
        numHandles := fs.numHandles + 1 })
  else
    (-1, fs)

/-- `fat32_close` of fat32.c: only when `fd` equals `numHandles - 1`
(a `uint32` comparison, the `int fd` being converted to uint32) is the
handle count decremented (`--numHandles`, uint32); the handle table
itself is never touched and the file record is never freed. -/
def fat32_close (fs : fat_t) (fd : Nat) : fat_t :=
  if fd % U32 = (fs.numHandles + U32 - 1) % U32 then
    { fs with numHandles := (fs.numHandles + U32 - 1) % U32 }
  else
    fs

/-- The C conversion of an integer value to `uint32` (performed by the
usual arithmetic conversions when a `long` meets a `uint32` operand and
by a store into a `uint32` field): the value modulo `2^32`. -/
def toUInt32 (x : Int) : Nat :=
  (x % 4294967296).toNat

/-- The C conversion of a machine word to the 32-bit `long` of
arm-none-eabi: two's-complement reinterpretation of the low 32 bits, so
words at or above `2^31` come out negative. -/
def toInt32 (n : Nat) : Int :=
  let m := n % 4294967296
  if m < 2147483648 then (m : Int) else (m : Int) - 4294967296

/-- `fat32_tell` of fat32.c: `return fs->filehandles[fd]->position;`
converts the `uint32` position to the `long` return type, so a position
at or above `2^31` is reported negative. -/
def fat32_tell (fs : fat_t) (fd : Nat) : Int :=
  toInt32 (fs.filehandles fd).position

/-- The byte-count and position bookkeeping of `fat32_read` (fat32.c
lines 456-459 and 509-511): `toRead = size*nmemb` (`size_t`, i.e. uint32)
is clamped against `length + position` (the source literally adds the
two), the copy loops then transfer exactly `toRead` bytes (the first
partial cluster, the interior whole clusters, and the final partial
cluster always end with `read = toRead`), the position is advanced by
`toRead` in uint32, and `read / size` is returned.  The byte movement
through `clusterBuffer` is elided: it never alters these counts. -/
def fat32_read (fs : fat_t) (fd : Nat) (size nmemb : Nat) : Nat × fat_t :=
  let f := fs.filehandles fd
  let toRead0 := size * nmemb % U32
  let clamp := (f.length + f.position) % U32
  let toRead := if clamp < toRead0 then clamp else toRead0
  let f2 := { f with position := (f.position + toRead) % U32 }
  (toRead / size, { fs with filehandles := Function.update fs.filehandles fd f2 })

/-- A concrete one-handle table whose open file sits at position 5 of a
10-byte file, used as an evaluation point. -/
def Fdemo : fat_t :=
  { filehandles := fun _ => { cluster := 2, opened := true, position := 5, length := 10 }
    numHandles := 1 }

/-- A one-handle table whose open file sits at position `2^31 - 1` of a
file of length `2^32 - 2`: both fields are valid `uint32` values, but a
seek resolution past `2^31 - 1` no longer fits the 32-bit `long`. -/
def Fbig : fat_t :=
  { filehandles := fun _ =>
      { cluster := 2, opened := true, position := 2147483647, length := 4294967294 }
    numHandles := 1 }

/-- The `whence` selector of `fat32_seek`.  Modelled from the spec: the
`VFS_SEEK_SET` / `VFS_SEEK_CUR` / `VFS_SEEK_END` constants live in vfs.h,
which is not part of the provided sources; the spec says seek supports
offsets relative to the start, the current position, or the end, and the
switch in fat32.c has exactly those three cases plus a default. -/
inductive SeekWhence where
  | seekSet
  | seekCur
  | seekEnd
  | seekBad

/-- The successful-seek store `fs->filehandles[fd]->position = offset`:
the resolved `long` offset is converted to `uint32` and stored. -/
def seekUpdate (fs : fat_t) (fd : Nat) (off2 : Int) : fat_t :=
  { fs with
    filehandles :=
      Function.update fs.filehandles fd { fs.filehandles fd with position := toUInt32 off2 } }

/-- `fat32_seek` of fat32.c, with the C arithmetic conversions explicit.
`offset` is the 32-bit `long` parameter.  For `SEEK_CUR` / `SEEK_END`
the source runs `offset += position` / `offset += length`: a `long`
plus a `uint32` is computed in `uint32` (mod `2^32`) and assigned back
to the `long`, so a resolution at or above `2^31` wraps negative.  The
guard `offset < 0 || offset > length` tests the `long` sign and then
compares `(uint32)offset` against the `uint32` length; failure returns
`-1` with the handle untouched (`-2` for an unknown whence), success
stores the new position and returns 0. -/
def fat32_seek (fs : fat_t) (fd : Nat) (offset : Int) (whence : SeekWhence) : Int × fat_t :=
  let f := fs.filehandles fd
  match whence with
  | .seekBad => (-2, fs)
  | w =>
      let off2 : Int :=
        match w with
        | .seekCur => toInt32 (toUInt32 offset + f.position)
        | .seekEnd => toInt32 (toUInt32 offset + f.length)
        | _ => offset
      if off2 < 0 ∨ f.length < toUInt32 off2 then
        (-1, fs)
      else
        (0, seekUpdate fs fd off2)

/-! ## FAT mount: BPB parsing and validation (fat32.c, `fat32_newfs`) -/

/-- `getLE16` of fat32.c on a byte-addressed buffer (each byte read as a
`uint8`). -/
def getLE16 (b : Nat → Nat) (off : Nat) : Nat :=
  b off % 256 + b (off + 1) % 256 * 256

/-- `getLE32` of fat32.c. -/
def getLE32 (b : Nat → Nat) (off : Nat) : Nat :=
  b off % 256 + b (off + 1) % 256 * 256 + b (off + 2) % 256 * 65536 + b (off + 3) % 256 * 16777216

/-- The volume geometry that `fat32_newfs` derives from a valid BPB and
stores into the `fat` singleton. -/
structure FatInit where
  bytes_per_sector : Nat
  sectors_per_cluster : Nat
  data_area_offset : Nat
  entries_in_rootdir : Nat
  number_of_reserved_sectors : Nat
  number_of_fats : Nat
  sectors_per_fat : Nat
  bytes_per_cluster : Nat
  entries_per_sector : Nat
  blks_per_sector : Nat
  blks_per_cluster : Nat
  bits_per_fat_entry : Nat
  root_dir_first_cluster : Nat
  countofClusters : Nat

/-- The cluster-count computation of `fat32_newfs` (fat32.c lines
619-648): the root-directory sector count, the FAT size (16- or 32-bit
field), the total sector count (16- or 32-bit field), the first data
sector and the uint32 `dataSec = totSec - firstDataSector` subtraction,
divided by sectors-per-cluster. -/
def fat_countofClusters (bpb : Nat → Nat) : Nat :=
  let BPB_BytsPerSec := getLE16 bpb 11
  let BPB_RootEntCnt := getLE16 bpb 17
  let rootDirSectors := (BPB_RootEntCnt * 32 + (BPB_BytsPerSec - 1)) / BPB_BytsPerSec
  let BPB_FATSz16 := getLE16 bpb 22
  let fatSz := if BPB_FATSz16 ≠ 0 then BPB_FATSz16 else getLE32 bpb 36
  let BPB_TotSec16 := getLE16 bpb 19
  let totSec := if BPB_TotSec16 ≠ 0 then BPB_TotSec16 else getLE32 bpb 32
  let BPB_ResvdSecCnt := getLE16 bpb 14
  let BPB_NumFATs := bpb 16 % 256
  let firstDataSector := (BPB_ResvdSecCnt + BPB_NumFATs * fatSz + rootDirSectors) % U32
  let dataSec := (totSec % U32 + U32 - firstDataSector) % U32
  dataSec / (bpb 13 % 256)

/-- `fat32_newfs` of fat32.c (lines 571-687), from the 512 BPB bytes to
either a fatal rejection (`none`, the `mlc_show_critical_error` paths)
or the derived volume geometry: boot signature 0xAA55, bytes-per-sector
in {512,1024,2048,4096}, sectors-per-cluster a power of two in 1..128,
then the cluster count (`fat_countofClusters`, factored out above)
classifies FAT12 (fatal) / FAT16 / FAT32 and fixes the root directory
location (`firstRootDirSecNum` is a `uint16` in the source, hence the
mod 2^16). -/
def fat32_newfs (bpb : Nat → Nat) : Option FatInit :=
  if getLE16 bpb 510 ≠ 43605 then none
  else
    let BPB_BytsPerSec := getLE16 bpb 11
    if ¬(BPB_BytsPerSec = 512 ∨ BPB_BytsPerSec = 1024 ∨ BPB_BytsPerSec = 2048 ∨
         BPB_BytsPerSec = 4096) then none
    else
      let BPB_SecPerClus := bpb 13 % 256
      if ¬(BPB_SecPerClus = 1 ∨ BPB_SecPerClus = 2 ∨ BPB_SecPerClus = 4 ∨ BPB_SecPerClus = 8 ∨
           BPB_SecPerClus = 16 ∨ BPB_SecPerClus = 32 ∨ BPB_SecPerClus = 64 ∨
           BPB_SecPerClus = 128) then none
      else
        let BPB_RootEntCnt := getLE16 bpb 17
        let rootDirSectors := (BPB_RootEntCnt * 32 + (BPB_BytsPerSec - 1)) / BPB_BytsPerSec
        let BPB_FATSz16 := getLE16 bpb 22
        let fatSz := if BPB_FATSz16 ≠ 0 then BPB_FATSz16 else getLE32 bpb 36
        let BPB_ResvdSecCnt := getLE16 bpb 14
        let BPB_NumFATs := bpb 16 % 256
        let countofClusters := fat_countofClusters bpb
        if countofClusters < 4085 then none
        else
          some
            { bytes_per_sector := BPB_BytsPerSec
              sectors_per_cluster := BPB_SecPerClus
              data_area_offset := rootDirSectors
              entries_in_rootdir := BPB_RootEntCnt
              number_of_reserved_sectors := BPB_ResvdSecCnt
              number_of_fats := BPB_NumFATs
              sectors_per_fat := fatSz
              bytes_per_cluster := BPB_BytsPerSec * BPB_SecPerClus
              entries_per_sector := BPB_BytsPerSec / 32
              blks_per_sector := BPB_BytsPerSec / 512
              blks_per_cluster := BPB_BytsPerSec * BPB_SecPerClus / 512
              bits_per_fat_entry := if countofClusters < 65525 then 16 else 32
              root_dir_first_cluster :=
                if countofClusters < 65525 then
                  (BPB_ResvdSecCnt + BPB_NumFATs * BPB_FATSz16) % U16
                else getLE32 bpb 44
              countofClusters := countofClusters }

/-! ## Long filename assembly (fat32.c, `getNextCompleteEntry`) -/

/-- A raw 32-byte directory entry, as its list of byte values. -/
abbrev Entry : Type := List Nat

/-- Byte `i` of a directory entry, as the `uint8` the C code reads. -/
def entryByte (e : Entry) (i : Nat) : Nat :=
  (List.getD e i 0) % 256

/-- `lfn_checksum` of fat32.c over the 11 bytes of an 8.3 name: rotate
the uint8 accumulator right by one and add the next byte. -/
def lfn_checksum (e : Entry) : Nat :=
  (List.range 11).foldl
    (fun sum i => ((if sum % 2 = 1 then 128 else 0) + sum / 2 + entryByte e i) % 256) 0

/-- `ucs2cpy` of fat32.c: decode `chars` little-endian UCS-2 code points
from `src`; 0x0000 and 0xFFFF become NUL bytes, printable ASCII
(0x20..0x7E) is copied, anything else becomes an underscore and bumps
the unsupported-character count (the second component). -/
def ucs2cpy (src : List Nat) (chars : Nat) : List Nat × Nat :=
  match chars with
  | 0 => ([], 0)
  | Nat.succ n =>
      let u := (List.getD src 0 0) % 256 + (List.getD src 1 0) % 256 * 256
      let p := ucs2cpy (List.drop 2 src) n
      if u = 0 ∨ u = 65535 then (0 :: p.1, p.2)
      else if 32 ≤ u ∧ u ≤ 126 then (u % 256 :: p.1, p.2)
      else (95 :: p.1, p.2 + 1)

/-- Overwrite `xs.length` bytes of `buf` starting at offset `off`
(the effect of `ucs2cpy` writing into the `longname` buffer). -/
def writeAt (buf : List Nat) (off : Nat) (xs : List Nat) : List Nat :=
  List.take off buf ++ xs ++ List.drop (off + xs.length) buf

/-- The long-filename assembly state of `getNextCompleteEntry`: the
checksum captured from the most recent 0x40-flagged fragment, the
`namegood` flag, and the 256-byte `longname` buffer. -/
structure LfnState where
  chksum : Nat
  namegood : Bool
  longname : List Nat

/-- The LFN branch of `getNextCompleteEntry` (fat32.c lines 286-342) for
one 0x0F-attribute entry: compute the 13-character slot offset from the
sequence bits 0-4, reject offsets outside the buffer or a set bit 7; a
set bit 6 restarts assembly (zero the buffer, record this fragment's
checksum byte, set `namegood`); while `namegood`, decode the three
UCS-2 runs into the buffer at the slot offset, and any unmappable
character spoils the name. -/
def lfnStep (e : Entry) (st : LfnState) : LfnState :=
  let seq := entryByte e 0
  let sOff : Int := 13 * ((seq % 32 : Int) - 1)
  if 0 ≤ sOff ∧ sOff < 242 ∧ Nat.testBit seq 7 = false then
    let off := sOff.toNat
    let st1 :=
      if Nat.testBit seq 6 then
        { chksum := entryByte e 13, namegood := true, longname := List.replicate 256 0 }
      else st
    if st1.namegood then
      let p1 := ucs2cpy (List.take 10 (List.drop 1 e)) 5
      let p2 := ucs2cpy (List.take 12 (List.drop 14 e)) 6
      let p3 := ucs2cpy (List.take 4 (List.drop 28 e)) 2
      let ln := writeAt st1.longname off (p1.1 ++ p2.1 ++ p3.1)
      if 0 < p1.2 + p2.2 + p3.2 then { st1 with longname := ln, namegood := false }
      else { st1 with longname := ln }
    else st1
  else
    { st with namegood := false }

/-- The entry loop of `getNextCompleteEntry` (fat32.c lines 279-382) over
a directory's raw entries: byte 0 = 0 terminates the directory, 0xE5 is
a deleted entry, attribute 0x0F feeds the LFN assembly, and any other
entry terminates the group — with the assembled long name attached only
if `namegood` held and the recorded checksum matches this entry's 8.3
checksum, otherwise `longname[0]` is zeroed (short name only).  Returns
the terminating entry, the long name buffer, and the final checksum and
`namegood` values. -/
def getNextCompleteEntry (entries : List Entry) (st : LfnState) :
    Option (Entry × List Nat × Nat × Bool) :=
  match entries with
  | [] => none
  | e :: rest =>
      if entryByte e 0 = 0 then none
      else if entryByte e 0 = 229 then getNextCompleteEntry rest st
      else if entryByte e 11 = 15 then getNextCompleteEntry rest (lfnStep e st)
      else if st.namegood = false ∨ st.chksum ≠ lfn_checksum e then
        some (e, List.set st.longname 0 0, st.chksum, false)
      else
        some (e, st.longname, st.chksum, true)

/-- The `LfnState` at the start of a `getNextCompleteEntry` call: the
local `chksum` and `namegood` of the C function are initialized to 0,
and the static `longname` buffer starts zeroed. -/
def lfnStart : LfnState :=
  { chksum := 0, namegood := false, longname := List.replicate 256 0 }

/-- A concrete 8.3 file entry (name bytes spelling FILENAMETXT, attribute
0x20); its `lfn_checksum` is 58. -/
def shortEntryC7 : Entry :=
  [70, 73, 76, 69, 78, 65, 77, 69, 84, 88, 84, 32] ++ List.replicate 20 0

/-- A concrete LFN fragment: sequence byte 0x42 (bit 6 set, slot 2),
checksum byte 58, carrying the UCS-2 characters n, o, p, then the 0x0000
terminator and 0xFFFF padding. -/
def lfnFrag2C7 : Entry :=
  [66, 110, 0, 111, 0, 112, 0, 0, 0, 255, 255, 15, 0, 58] ++
    List.replicate 12 255 ++ [0, 0] ++ List.replicate 4 255

/-- A concrete LFN fragment: sequence byte 0x01 (slot 1), checksum byte
99 (deliberately different from 58), carrying the UCS-2 characters
a through m. -/
def lfnFrag1C7 : Entry :=
  [1, 97, 0, 98, 0, 99, 0, 100, 0, 101, 0, 15, 0, 99,
   102, 0, 103, 0, 104, 0, 105, 0, 106, 0, 107, 0, 0, 0, 108, 0, 109, 0]

/-- The same slot-1 fragment with the matching checksum byte 58. -/
def lfnFrag1good : Entry :=
  [1, 97, 0, 98, 0, 99, 0, 100, 0, 101, 0, 15, 0, 58,
   102, 0, 103, 0, 104, 0, 105, 0, 106, 0, 107, 0, 0, 0, 108, 0, 109, 0]

/-!
## Theorems

Helper lemmas first, then one theorem per claim (with its witness or
counterexample where required).
-/

/-- A head write of 0 makes the head byte 0 (the `longname[0] = 0`
fallback of `getNextCompleteEntry`). -/
theorem headD_set_zero (l : List Nat) : List.headD (List.set l 0 0) 0 = 0 := by
  cases l <;> rfl

/-- The `uint8` accumulation loop of `ata_identify` computes the plain
byte sum mod 256. -/
theorem foldl_mod_add (A B : Nat → Nat) (l : List Nat) :
    ∀ s : Nat,
      l.foldl (fun s i => ((s + A i) % 256 + B i) % 256) (s % 256) =
        (s + (l.map fun i => A i + B i).sum) % 256 := by
  induction l with
  | nil => intro s; simp
  | cons h t ih =>
      intro s
      have h1 : ((s % 256 + A h) % 256 + B h) % 256 = (s + A h + B h) % 256 := by omega
      simp only [List.foldl_cons, h1]
      have h2 := ih (s + A h + B h)
      simp only [List.map_cons, List.sum_cons]
      rw [h2]
      omega

/-- The checksum loop value equals the total byte sum mod 256. -/
theorem identify_sum_eq (buff : Nat → Nat) :
    identify_sum buff = identify_total buff % 256 := by
  have h := foldl_mod_add (fun i => identify_word buff i % 256)
    (fun i => identify_word buff i / 256) (List.range 256) 0
  simpa [identify_sum, identify_total] using h

/-- C8: when the IDENTIFY response carries the 0xA5 checksum signature in
the low byte of word 255, `ata_identify` halts fatally exactly when the
sum of all 512 response bytes is nonzero mod 256; with no signature (or
a zero sum) identification proceeds. -/
theorem claim_C8 (buff : Nat → Nat) :
    (identify_word buff 255 % 256 = 165 →
      (ata_identify_gate buff = none ↔ identify_total buff % 256 ≠ 0)) ∧
    (identify_word buff 255 % 256 ≠ 165 → ata_identify_gate buff = some ()) := by
  constructor
  · intro hsig
    rw [ata_identify_gate, if_pos hsig, identify_sum_eq]
    by_cases hz : identify_total buff % 256 = 0
    · simp [hz]
    · simp [hz]
  · intro hsig
    rw [ata_identify_gate, if_neg hsig]

set_option maxRecDepth 4000 in
/-- C8 witness: a response of all-zero words except word 255 = 0x00A5
(signature present, byte sum 165) halts fatally. -/
theorem claim_C8_witness :
    ata_identify_gate (fun i => if i = 255 then 165 else 0) = none :=
  ((claim_C8 (fun i => if i = 255 then 165 else 0)).1 (by decide)).mpr (by decide)

/-- C1: the spec says a read transfers `min(size*count, length -
position)` bytes and the position never exceeds the length; the code of
`fat32_read` clamps `size*nmemb` against `length + position` instead
(fat32.c line 458).  At position 5 of a 10-byte file a 100-byte request
transfers 15 bytes (instead of the 5 remaining) and leaves the position
at 20, beyond the file length. -/
theorem claim_C1 :
    (fat32_read Fdemo 0 1 100).1 = 15 ∧
    ((fat32_read Fdemo 0 1 100).2.filehandles 0).position = 20 ∧
    (fat32_read Fdemo 0 1 100).1 ≠ min (1 * 100) (10 - 5) ∧
    10 < ((fat32_read Fdemo 0 1 100).2.filehandles 0).position := by
  decide

/-- Reduction of `ata_readblock2` on a cache hit. -/
theorem readblock2_hit (disk : Nat → Nat) (cfg : AtaCfg) (dst sector : Nat) (st : AtaState)
    (i : Nat) (st1 : AtaState) (h : find_cache_entry sector st = (some i, st1)) :
    ata_readblock2 disk cfg dst sector true st =
      some { dst := st1.cachedata i, st := st1, cmds := [] } := by
  rw [ata_readblock2, if_pos rfl, h]

/-- Reduction of `ata_readblock2` on a cache miss. -/
theorem readblock2_miss (disk : Nat → Nat) (cfg : AtaCfg) (dst sector : Nat) (st st1 : AtaState)
    (h : find_cache_entry sector st = (none, st1)) :
    ata_readblock2 disk cfg dst sector true st =
      ata_readblock2_hw disk cfg dst sector true st1 := by
  rw [ata_readblock2, if_pos rfl, h]

/-- A miss leaves the state unchanged: whenever the lookup reports no
hit, the full result of `find_cache_entry` is `(none, st)`. -/
theorem find_none_eq (sector : Nat) (st : AtaState)
    (h : (find_cache_entry sector st).1 = none) :
    find_cache_entry sector st = (none, st) := by
  rw [find_cache_entry] at h ⊢
  by_cases hs : sector = CACHE_SENTINEL
  · rw [if_pos hs]
  · rw [if_neg hs] at h ⊢
    cases hf : (List.range CACHE_NUMBLOCKS).find? (fun i => st.cacheaddr i == sector) with
    | none => rfl
    | some i => rw [hf] at h; exact absurd h (by simp)

/-- Evaluation of the hardware path in cached mode when the LBA28 bound
passes. -/
theorem hw_eval_cached (disk : Nat → Nat) (cfg : AtaCfg) (dst sector : Nat) (st0 : AtaState)
    (h : ¬(cfg.lba48 = false ∧ 268435455 < sector)) :
    ata_readblock2_hw disk cfg dst sector true st0 =
      some
        { dst := (cache_fill_loop disk sector dst (aligned_base sector cfg.alignment_log2) st0
            (aligned_iters sector cfg.alignment_log2)).1
          st :=
            { (cache_fill_loop disk sector dst (aligned_base sector cfg.alignment_log2) st0
                (aligned_iters sector cfg.alignment_log2)).2 with
              cacheticks :=
                (cache_fill_loop disk sector dst (aligned_base sector cfg.alignment_log2) st0
                  (aligned_iters sector cfg.alignment_log2)).2.cacheticks + 1 }
          cmds := [ata_send_read_command (aligned_base sector cfg.alignment_log2)
              (aligned_read_size cfg.alignment_log2)] } := by
  rw [ata_readblock2_hw, if_neg h]
  rfl

/-- Evaluation of the hardware path in uncached mode when the LBA28
bound passes. -/
theorem hw_eval_uncached (disk : Nat → Nat) (cfg : AtaCfg) (dst sector : Nat) (st0 : AtaState)
    (h : ¬(cfg.lba48 = false ∧ 268435455 < sector)) :
    ata_readblock2_hw disk cfg dst sector false st0 =
      some
        { dst := uncached_read_loop disk sector dst (aligned_base sector cfg.alignment_log2)
            (aligned_iters sector cfg.alignment_log2)
          st := st0
          cmds := [ata_send_read_command (aligned_base sector cfg.alignment_log2)
              (aligned_read_size cfg.alignment_log2)] } := by
  rw [ata_readblock2_hw, if_neg h]
  rfl

/-- C10: the all-ones sector number is the cache's invalid-slot
sentinel: the lookup reports a miss for it against every cache state, so
a cached read of it is never served from the cache — whenever it does
not halt fatally (LBA28 bound), it issues a hardware read command. -/
theorem claim_C10 :
    (∀ st : AtaState, (find_cache_entry CACHE_SENTINEL st).1 = none) ∧
    (∀ (disk : Nat → Nat) (cfg : AtaCfg) (dst : Nat) (st : AtaState),
      (ata_readblock2 disk cfg dst CACHE_SENTINEL true st).isSome = true →
        readCmds (ata_readblock2 disk cfg dst CACHE_SENTINEL true st) ≠ []) := by
  have hfind : ∀ st : AtaState, find_cache_entry CACHE_SENTINEL st = (none, st) := by
    intro st
    rw [find_cache_entry, if_pos rfl]
  constructor
  · intro st
    rw [hfind]
  · intro disk cfg dst st h
    rw [readblock2_miss disk cfg dst CACHE_SENTINEL st st (hfind st)] at h ⊢
    by_cases hl : cfg.lba48 = false ∧ 268435455 < CACHE_SENTINEL
    · rw [ata_readblock2_hw, if_pos hl] at h
      exact absurd h (by simp)
    · rw [hw_eval_cached disk cfg dst CACHE_SENTINEL st hl]
      simp [readCmds]

/-- C10 witness: with a fresh cache and an LBA48 drive, a cached read of
sector 0xFFFFFFFF issues a hardware command. -/
theorem claim_C10_witness :
    readCmds (ata_readblock2 (fun i => i) ⟨true, 0⟩ 0 CACHE_SENTINEL true clear_cache) ≠ [] :=
  claim_C10.2 (fun i => i) ⟨true, 0⟩ 0 clear_cache (by decide)


/-- An integer already in `[0, 2^32)` is its own uint32 bit pattern. -/
theorem toUInt32_of_lt (x : Int) (h1 : 0 ≤ x) (h2 : x < 4294967296) :
    toUInt32 x = x.toNat := by
  simp only [toUInt32]
  omega

/-- Adding a `uint32` to a `long` in uint32 arithmetic and converting
the sum back to `long` recovers the mathematical sum whenever that sum
is representable as an `int32`. -/
theorem toInt32_toUInt32_add (x : Int) (n : Nat)
    (h1 : -2147483648 ≤ x + (n : Int)) (h2 : x + (n : Int) < 2147483648) :
    toInt32 (toUInt32 x + n) = x + n := by
  simp only [toInt32, toUInt32]
  split_ifs with hc <;> omega

/-- `fat32_seek` reads only the handle table: two states with equal
handle tables give equal results and equal resulting handle tables. -/
theorem fat32_seek_congr (fs1 fs2 : fat_t) (h : fs1.filehandles = fs2.filehandles)
    (fd : Nat) (offset : Int) (whence : SeekWhence) :
    (fat32_seek fs1 fd offset whence).1 = (fat32_seek fs2 fd offset whence).1 ∧
    (fat32_seek fs1 fd offset whence).2.filehandles =
      (fat32_seek fs2 fd offset whence).2.filehandles := by
  cases whence
  case seekBad => exact ⟨rfl, h⟩
  case seekSet =>
    simp only [fat32_seek, seekUpdate, h]
    by_cases hc : offset < 0 ∨ (fs2.filehandles fd).length < toUInt32 offset
    · rw [if_pos hc, if_pos hc]
      exact ⟨rfl, h⟩
    · rw [if_neg hc, if_neg hc]
      exact ⟨rfl, rfl⟩
  case seekCur =>
    simp only [fat32_seek, seekUpdate, h]
    by_cases hc : toInt32 (toUInt32 offset + (fs2.filehandles fd).position) < 0 ∨
        (fs2.filehandles fd).length <
          toUInt32 (toInt32 (toUInt32 offset + (fs2.filehandles fd).position))
    · rw [if_pos hc, if_pos hc]
      exact ⟨rfl, h⟩
    · rw [if_neg hc, if_neg hc]
      exact ⟨rfl, rfl⟩
  case seekEnd =>
    simp only [fat32_seek, seekUpdate, h]
    by_cases hc : toInt32 (toUInt32 offset + (fs2.filehandles fd).length) < 0 ∨
        (fs2.filehandles fd).length <
          toUInt32 (toInt32 (toUInt32 offset + (fs2.filehandles fd).length))
    · rw [if_pos hc, if_pos hc]
      exact ⟨rfl, h⟩
    · rw [if_neg hc, if_neg hc]
      exact ⟨rfl, rfl⟩

/-- C5 (amended): `fat32_seek` accepts offsets relative to the file
start, the current position, or the file end, but the resolution is
32-bit C arithmetic: `offset += position` / `offset += length` wraps
modulo `2^32` and is reinterpreted as a signed 32-bit `long`.  Whenever
the mathematical resolved offset is representable as an `int32`, a
resolution outside `[0, length]` returns `-1` with the handle
untouched, and a resolution inside `[0, length]` stores it as the new
position and returns 0.  When the mathematical resolution reaches
`2^31` — possible only on files of length at least `2^31` — the
wrapped `long` is negative and the seek is rejected even though the
target lies inside `[0, length]`: see the counterexample. -/
theorem claim_C5 (fs : fat_t) (fd : Nat) (offset : Int) :
    ((-2147483648 ≤ offset → offset < 2147483648 →
      ((offset < 0 ∨ ((fs.filehandles fd).length : Int) < offset) →
        fat32_seek fs fd offset SeekWhence.seekSet = (-1, fs)) ∧
      (0 ≤ offset → offset ≤ ((fs.filehandles fd).length : Int) →
        fat32_seek fs fd offset SeekWhence.seekSet = (0, seekUpdate fs fd offset) ∧
        ((seekUpdate fs fd offset).filehandles fd).position = offset.toNat))) ∧
    ((-2147483648 ≤ offset + ((fs.filehandles fd).position : Int) →
      offset + ((fs.filehandles fd).position : Int) < 2147483648 →
      ((offset + ((fs.filehandles fd).position : Int) < 0 ∨
        ((fs.filehandles fd).length : Int) < offset + ((fs.filehandles fd).position : Int)) →
        fat32_seek fs fd offset SeekWhence.seekCur = (-1, fs)) ∧
      (0 ≤ offset + ((fs.filehandles fd).position : Int) →
        offset + ((fs.filehandles fd).position : Int) ≤ ((fs.filehandles fd).length : Int) →
        fat32_seek fs fd offset SeekWhence.seekCur =
          (0, seekUpdate fs fd (offset + ((fs.filehandles fd).position : Int))) ∧
        ((seekUpdate fs fd
            (offset + ((fs.filehandles fd).position : Int))).filehandles fd).position =
          (offset + ((fs.filehandles fd).position : Int)).toNat))) ∧
    ((-2147483648 ≤ offset + ((fs.filehandles fd).length : Int) →
      offset + ((fs.filehandles fd).length : Int) < 2147483648 →
      ((offset + ((fs.filehandles fd).length : Int) < 0 ∨
        ((fs.filehandles fd).length : Int) < offset + ((fs.filehandles fd).length : Int)) →
        fat32_seek fs fd offset SeekWhence.seekEnd = (-1, fs)) ∧
      (0 ≤ offset + ((fs.filehandles fd).length : Int) →
        offset + ((fs.filehandles fd).length : Int) ≤ ((fs.filehandles fd).length : Int) →
        fat32_seek fs fd offset SeekWhence.seekEnd =
          (0, seekUpdate fs fd (offset + ((fs.filehandles fd).length : Int))) ∧
        ((seekUpdate fs fd
            (offset + ((fs.filehandles fd).length : Int))).filehandles fd).position =
          (offset + ((fs.filehandles fd).length : Int)).toNat))) := by
  refine ⟨?_, ?_, ?_⟩
  · intro hb1 hb2
    constructor
    · intro h1
      simp only [fat32_seek]
      have hc : offset < 0 ∨ (fs.filehandles fd).length < toUInt32 offset := by
        rcases h1 with h1 | h1
        · exact Or.inl h1
        · refine Or.inr ?_
          rw [toUInt32_of_lt offset (by omega) (by omega)]
          omega
      rw [if_pos hc]
    · intro h1 h2
      have hu : toUInt32 offset = offset.toNat := toUInt32_of_lt offset h1 (by omega)
      constructor
      · simp only [fat32_seek]
        rw [if_neg (by rw [hu]; omega)]
      · simp only [seekUpdate]
        rw [Function.update_same]
        exact hu
  · intro hb1 hb2
    have hoff : toInt32 (toUInt32 offset + (fs.filehandles fd).position) =
        offset + ((fs.filehandles fd).position : Int) :=
      toInt32_toUInt32_add offset (fs.filehandles fd).position hb1 hb2
    constructor
    · intro h1
      simp only [fat32_seek]
      rw [hoff]
      have hc : offset + ((fs.filehandles fd).position : Int) < 0 ∨
          (fs.filehandles fd).length <
            toUInt32 (offset + ((fs.filehandles fd).position : Int)) := by
        rcases h1 with h1 | h1
        · exact Or.inl h1
        · refine Or.inr ?_
          rw [toUInt32_of_lt _ (by omega) (by omega)]
          omega
      rw [if_pos hc]
    · intro h1 h2
      have hu : toUInt32 (offset + ((fs.filehandles fd).position : Int)) =
          (offset + ((fs.filehandles fd).position : Int)).toNat :=
        toUInt32_of_lt _ h1 (by omega)
      constructor
      · simp only [fat32_seek]
        rw [hoff, if_neg (by rw [hu]; omega)]
      · simp only [seekUpdate]
        rw [Function.update_same]
        exact hu
  · intro hb1 hb2
    have hoff : toInt32 (toUInt32 offset + (fs.filehandles fd).length) =
        offset + ((fs.filehandles fd).length : Int) :=
      toInt32_toUInt32_add offset (fs.filehandles fd).length hb1 hb2
    constructor
    · intro h1
      simp only [fat32_seek]
      rw [hoff]
      have hc : offset + ((fs.filehandles fd).length : Int) < 0 ∨
          (fs.filehandles fd).length <
            toUInt32 (offset + ((fs.filehandles fd).length : Int)) := by
        rcases h1 with h1 | h1
        · exact Or.inl h1
        · refine Or.inr ?_
          rw [toUInt32_of_lt _ (by omega) (by omega)]
          omega
      rw [if_pos hc]
    · intro h1 h2
      have hu : toUInt32 (offset + ((fs.filehandles fd).length : Int)) =
          (offset + ((fs.filehandles fd).length : Int)).toNat :=
        toUInt32_of_lt _ h1 (by omega)
      constructor
      · simp only [fat32_seek]
        rw [hoff, if_neg (by rw [hu]; omega)]
      · simp only [seekUpdate]
        rw [Function.update_same]
        exact hu

/-- C5 counterexample: on a handle at position `2^31 - 1` of a file of
length `2^32 - 2`, seeking `2^31 - 1` forward from the current position
targets byte `2^32 - 2` — exactly the file length, inside
`[0, length]`, where the claim requires success — but the 32-bit
resolution wraps to `-2`, so `fat32_seek` returns `-1` and leaves the
position unchanged. -/
theorem claim_C5_counterexample :
    0 ≤ (2147483647 : Int) + ((Fbig.filehandles 0).position : Int) ∧
    (2147483647 : Int) + ((Fbig.filehandles 0).position : Int) ≤
      ((Fbig.filehandles 0).length : Int) ∧
    (fat32_seek Fbig 0 2147483647 SeekWhence.seekCur).1 = -1 ∧
    ((fat32_seek Fbig 0 2147483647 SeekWhence.seekCur).2.filehandles 0).position =
      (Fbig.filehandles 0).position :=
  ⟨by decide, by decide, by decide, by decide⟩

/-- C5 witness: on the demo handle (position 5, length 10), seeking to
20 from the start is rejected, and seeking -3 from the end succeeds,
storing position 7. -/
theorem claim_C5_witness :
    fat32_seek Fdemo 0 20 SeekWhence.seekSet = (-1, Fdemo) ∧
    (fat32_seek Fdemo 0 (-3) SeekWhence.seekEnd =
      (0, seekUpdate Fdemo 0 ((-3 : Int) + ((Fdemo.filehandles 0).length : Int))) ∧
     ((seekUpdate Fdemo 0
         ((-3 : Int) + ((Fdemo.filehandles 0).length : Int))).filehandles 0).position =
       ((-3 : Int) + ((Fdemo.filehandles 0).length : Int)).toNat) :=
  ⟨((claim_C5 Fdemo 0 20).1 (by decide) (by decide)).1 (by decide),
   ((claim_C5 Fdemo 0 (-3)).2.2 (by decide) (by decide)).2 (by decide) (by decide)⟩

/-- C9: closing a descriptor frees its handle-table slot only when it is
the most recently opened one still counted (`fd = numHandles - 1`); any
other close leaves the count untouched, the handle table itself is never
modified by a close, and the underlying file state survives, so tell,
seek and read on any descriptor behave exactly as before the close. -/
theorem claim_C9 (fs : fat_t) (fd : Nat) :
    (fat32_close fs fd).filehandles = fs.filehandles ∧
    (0 < fs.numHandles → fs.numHandles < U32 → fd < fs.numHandles →
      (fat32_close fs fd).numHandles =
        if fd = fs.numHandles - 1 then fs.numHandles - 1 else fs.numHandles) ∧
    (∀ fd2, fat32_tell (fat32_close fs fd) fd2 = fat32_tell fs fd2) ∧
    (∀ fd2 offset whence,
      (fat32_seek (fat32_close fs fd) fd2 offset whence).1 =
        (fat32_seek fs fd2 offset whence).1 ∧
      (fat32_seek (fat32_close fs fd) fd2 offset whence).2.filehandles =
        (fat32_seek fs fd2 offset whence).2.filehandles) ∧
    (∀ fd2 size nmemb,
      (fat32_read (fat32_close fs fd) fd2 size nmemb).1 =
        (fat32_read fs fd2 size nmemb).1 ∧
      (fat32_read (fat32_close fs fd) fd2 size nmemb).2.filehandles =
        (fat32_read fs fd2 size nmemb).2.filehandles) := by
  have hfh : (fat32_close fs fd).filehandles = fs.filehandles := by
    rw [fat32_close]
    split <;> rfl
  refine ⟨hfh, ?_, ?_, ?_, ?_⟩
  · intro h1 h2 h3
    rw [fat32_close]
    simp only [U32] at *
    by_cases hc : fd % 4294967296 = (fs.numHandles + 4294967296 - 1) % 4294967296
    · rw [if_pos hc, if_pos (show fd = fs.numHandles - 1 by omega)]
      show (fs.numHandles + 4294967296 - 1) % 4294967296 = fs.numHandles - 1
      omega
    · rw [if_neg hc, if_neg (show ¬fd = fs.numHandles - 1 by omega)]
  · intro fd2
    rw [fat32_tell, fat32_tell, hfh]
  · intro fd2 offset whence
    exact fat32_seek_congr (fat32_close fs fd) fs hfh fd2 offset whence
  · intro fd2 size nmemb
    simp [fat32_read, hfh]

/-- C9 witness: on the demo table (one open handle), closing descriptor
0 releases the slot, and an out-of-range close leaves the count at 1. -/
theorem claim_C9_witness :
    (fat32_close Fdemo 0).numHandles = if 0 = Fdemo.numHandles - 1 then Fdemo.numHandles - 1
      else Fdemo.numHandles :=
  (claim_C9 Fdemo 0).2.1 (by decide) (by decide) (by decide)

/-- A bitwise AND with a multiple of `2^k` is a multiple of `2^k`. -/
theorem two_pow_dvd_and (k x y : Nat) (h : 2 ^ k ∣ y) : 2 ^ k ∣ x &&& y := by
  apply Nat.dvd_of_mod_eq_zero
  rw [← Nat.and_pow_two_sub_one_eq_mod, Nat.and_assoc, Nat.and_pow_two_sub_one_eq_mod,
    Nat.mod_eq_zero_of_dvd h, Nat.and_zero]

/-- For a sane alignment exponent the uint16 `read_size` is exactly
`2^k`. -/
theorem aligned_read_size_eq (k : Nat) (hk : k < 16) :
    aligned_read_size k = 2 ^ k := by
  rw [aligned_read_size, Nat.one_shiftLeft]
  apply Nat.mod_eq_of_lt
  calc 2 ^ k < 2 ^ 16 := Nat.pow_lt_pow_right (by omega) hk
  _ = U16 := by rw [U16]

/-- The alignment mask `~((1u << k) - 1)` is `2^32 - 2^k`. -/
theorem aligned_mask_eq (k : Nat) (hk : k < 16) :
    (U32 - 1) - ((1 <<< k) % U32 - 1) = U32 - 2 ^ k := by
  rw [Nat.one_shiftLeft]
  have h2 : 2 ^ k < U32 := by
    calc 2 ^ k < 2 ^ 16 := Nat.pow_lt_pow_right (by omega) hk
    _ < U32 := by rw [U32]; omega
  rw [Nat.mod_eq_of_lt h2]
  have hp : 1 ≤ 2 ^ k := Nat.one_le_two_pow
  omega

/-- The rounded-down read base is a multiple of `2^k`. -/
theorem aligned_base_dvd (sector k : Nat) (hk : k < 16) :
    2 ^ k ∣ aligned_base sector k := by
  rw [aligned_base, aligned_mask_eq k hk]
  apply two_pow_dvd_and
  have hU : U32 = 2 ^ 32 := by rw [U32]; norm_num
  rw [hU]
  exact Nat.dvd_sub' (pow_dvd_pow 2 (by omega)) dvd_rfl

/-- The base is below `2^32`, so the uint32 LBA register holds it
unchanged. -/
theorem aligned_base_lt (sector k : Nat) (hk : k < 16) :
    aligned_base sector k < U32 := by
  rw [aligned_base, aligned_mask_eq k hk]
  have h1 : sector &&& (U32 - 2 ^ k) ≤ U32 - 2 ^ k := Nat.and_le_right
  have h2 : 1 ≤ 2 ^ k := Nat.one_le_two_pow
  have h3 : (1 : Nat) ≤ U32 := by rw [U32]; omega
  omega

/-- Every command issued by the hardware path is aligned: the command is
exactly one read of `2^k` blocks starting at the rounded-down base. -/
theorem hw_cmds_aligned (disk : Nat → Nat) (cfg : AtaCfg) (dst sector : Nat)
    (useCache : Bool) (st0 : AtaState) (hk : cfg.alignment_log2 < 16) :
    ∀ c ∈ readCmds (ata_readblock2_hw disk cfg dst sector useCache st0),
      2 ^ cfg.alignment_log2 ∣ c.1 ∧ 2 ^ cfg.alignment_log2 ∣ c.2 := by
  intro c hc
  rw [ata_readblock2_hw] at hc
  by_cases hl : cfg.lba48 = false ∧ 268435455 < sector
  · rw [if_pos hl] at hc
    simp [readCmds] at hc
  · rw [if_neg hl] at hc
    have hcmd : c = ata_send_read_command (aligned_base sector cfg.alignment_log2)
        (aligned_read_size cfg.alignment_log2) := by
      cases useCache <;> simpa [readCmds] using hc
    rw [hcmd, ata_send_read_command]
    constructor
    · rw [Nat.mod_eq_of_lt (aligned_base_lt sector cfg.alignment_log2 hk)]
      exact aligned_base_dvd sector cfg.alignment_log2 hk
    · rw [aligned_read_size_eq cfg.alignment_log2 hk]
      have h1 : 2 ^ cfg.alignment_log2 < U16 := by
        calc 2 ^ cfg.alignment_log2 < 2 ^ 16 := Nat.pow_lt_pow_right (by omega) hk
        _ = U16 := by rw [U16]
      rw [Nat.mod_eq_of_lt h1]

/-- Every command issued by a single `ata_readblock2` call is aligned. -/
theorem readblock2_cmds_aligned (disk : Nat → Nat) (cfg : AtaCfg) (dst sector : Nat)
    (useCache : Bool) (st : AtaState) (hk : cfg.alignment_log2 < 16) :
    ∀ c ∈ readCmds (ata_readblock2 disk cfg dst sector useCache st),
      2 ^ cfg.alignment_log2 ∣ c.1 ∧ 2 ^ cfg.alignment_log2 ∣ c.2 := by
  intro c hc
  cases useCache with
  | false =>
      rw [ata_readblock2, if_neg (by simp)] at hc
      exact hw_cmds_aligned disk cfg dst sector false st hk c hc
  | true =>
      rw [ata_readblock2, if_pos rfl] at hc
      cases hf : find_cache_entry sector st with
      | mk fo st1 =>
          rw [hf] at hc
          cases fo with
          | some i => simp [readCmds] at hc
          | none => exact hw_cmds_aligned disk cfg dst sector true st1 hk c hc

/-- Reduction of the multi-block loop when the head read succeeds. -/
theorem readblocks_loop_succ_some (disk : Nat → Nat) (cfg : AtaCfg) (sector m : Nat)
    (useCache : Bool) (st : AtaState) (r : ReadResult)
    (h1 : ata_readblock2 disk cfg 0 sector useCache st = some r) :
    ata_readblocks_loop disk cfg sector (m + 1) useCache st =
      (match ata_readblocks_loop disk cfg ((sector + 1) % U32) m useCache r.st with
       | none => none
       | some q => some (r.dst :: q.1, q.2.1, r.cmds ++ q.2.2)) := by
  rw [ata_readblocks_loop, h1]

/-- Every command issued by the multi-block loop is aligned. -/
theorem readblocks_loop_cmds_aligned (disk : Nat → Nat) (cfg : AtaCfg) (useCache : Bool)
    (hk : cfg.alignment_log2 < 16) :
    ∀ (count sector : Nat) (st : AtaState),
      ∀ c ∈ readsCmds (ata_readblocks_loop disk cfg sector count useCache st),
        2 ^ cfg.alignment_log2 ∣ c.1 ∧ 2 ^ cfg.alignment_log2 ∣ c.2 := by
  intro count
  induction count with
  | zero =>
      intro sector st c hc
      simp [ata_readblocks_loop, readsCmds] at hc
  | succ m ih =>
      intro sector st c hc
      cases h1 : ata_readblock2 disk cfg 0 sector useCache st with
      | none =>
          rw [ata_readblocks_loop, h1] at hc
          simp [readsCmds] at hc
      | some r =>
          rw [readblocks_loop_succ_some disk cfg sector m useCache st r h1] at hc
          cases h2 : ata_readblocks_loop disk cfg ((sector + 1) % U32) m useCache r.st with
          | none => rw [h2] at hc; simp [readsCmds] at hc
          | some q =>
              rw [h2] at hc
              simp only [readsCmds] at hc
              rw [List.mem_append] at hc
              cases hc with
              | inl h =>
                  refine readblock2_cmds_aligned disk cfg 0 sector useCache st hk c ?_
                  rw [h1]
                  exact h
              | inr h =>
                  refine ih ((sector + 1) % U32) r.st c ?_
                  rw [h2]
                  exact h

/-- C2: for every configured `alignment_log2 = k` (the driver only ever
configures 0, 1 or 3; any `k < 16` is covered) and every requested
sector, every read command issued to the hardware through
`ata_readblock`, `ata_readblocks` or `ata_readblocks_uncached` starts at
an LBA divisible by `2^k` and covers a block count that is a multiple of
`2^k`. -/
theorem claim_C2 (disk : Nat → Nat) (cfg : AtaCfg) (hk : cfg.alignment_log2 < 16) :
    (∀ (dst sector : Nat) (st : AtaState),
      ∀ c ∈ readCmds (ata_readblock disk cfg dst sector st),
        2 ^ cfg.alignment_log2 ∣ c.1 ∧ 2 ^ cfg.alignment_log2 ∣ c.2) ∧
    (∀ (sector count : Nat) (st : AtaState),
      ∀ c ∈ readsCmds (ata_readblocks disk cfg sector count st),
        2 ^ cfg.alignment_log2 ∣ c.1 ∧ 2 ^ cfg.alignment_log2 ∣ c.2) ∧
    (∀ (sector count : Nat) (st : AtaState),
      ∀ c ∈ readsCmds (ata_readblocks_uncached disk cfg sector count st),
        2 ^ cfg.alignment_log2 ∣ c.1 ∧ 2 ^ cfg.alignment_log2 ∣ c.2) := by
  refine ⟨?_, ?_, ?_⟩
  · intro dst sector st c hc
    exact readblock2_cmds_aligned disk cfg dst sector true st hk c hc
  · intro sector count st c hc
    exact readblocks_loop_cmds_aligned disk cfg true hk count sector st c hc
  · intro sector count st c hc
    exact readblocks_loop_cmds_aligned disk cfg false hk count sector st c hc

/-- C2 witness: with alignment 2 blocks, a cached read of odd sector 5
from a fresh cache issues the command (4, 2), which is 2-block aligned. -/
theorem claim_C2_witness :
    2 ^ (1 : Nat) ∣ (4 : Nat) ∧ 2 ^ (1 : Nat) ∣ (2 : Nat) :=
  (claim_C2 (fun i => i) ⟨true, 1⟩ (by decide)).1 0 5 clear_cache (4, 2) (by decide)

/-- A concrete FAT32 BPB: signature 0xAA55, 512-byte sectors, 1
sector/cluster, 32 reserved sectors, 1 FAT of 1000 sectors (32-bit
field), 100000 total sectors (32-bit field), root cluster 2; its cluster
count is 98968. -/
def bpb32demo : Nat → Nat := fun i =>
  if i = 510 then 85 else if i = 511 then 170 else
  if i = 12 then 2 else
  if i = 13 then 1 else
  if i = 14 then 32 else
  if i = 16 then 1 else
  if i = 36 then 232 else if i = 37 then 3 else
  if i = 32 then 160 else if i = 33 then 134 else if i = 34 then 1 else
  if i = 44 then 2 else 0

/-- A concrete FAT16 BPB: signature 0xAA55, 512-byte sectors, 2
sectors/cluster, 4 reserved sectors, 2 FATs of 16 sectors, 65535 total
sectors (16-bit field); its cluster count is 32749 and its root
directory starts at sector 4 + 2*16 = 36. -/
def bpb16demo : Nat → Nat := fun i =>
  if i = 510 then 85 else if i = 511 then 170 else
  if i = 12 then 2 else
  if i = 13 then 2 else
  if i = 14 then 4 else
  if i = 16 then 2 else
  if i = 22 then 16 else
  if i = 19 then 255 else if i = 20 then 255 else 0

/-- C6: `fat32_newfs` fatally rejects a bytes-per-sector outside
{512, 1024, 2048, 4096} and a sectors-per-cluster that is not a power of
two in 1..128; on a structurally valid BPB it classifies fewer than 4085
clusters as FAT12 (fatal), fewer than 65525 as FAT16 with the root
directory at the fixed sector `reserved + FATs * FATsize16` (uint16),
and anything else as FAT32 with the root taken from the BPB root-cluster
field at offset 44. -/
theorem claim_C6 :
    (∀ bpb : Nat → Nat,
      getLE16 bpb 11 ≠ 512 → getLE16 bpb 11 ≠ 1024 → getLE16 bpb 11 ≠ 2048 →
      getLE16 bpb 11 ≠ 4096 → fat32_newfs bpb = none) ∧
    (∀ bpb : Nat → Nat,
      bpb 13 % 256 ≠ 1 → bpb 13 % 256 ≠ 2 → bpb 13 % 256 ≠ 4 → bpb 13 % 256 ≠ 8 →
      bpb 13 % 256 ≠ 16 → bpb 13 % 256 ≠ 32 → bpb 13 % 256 ≠ 64 → bpb 13 % 256 ≠ 128 →
      fat32_newfs bpb = none) ∧
    (∀ bpb : Nat → Nat,
      getLE16 bpb 510 = 43605 →
      (getLE16 bpb 11 = 512 ∨ getLE16 bpb 11 = 1024 ∨ getLE16 bpb 11 = 2048 ∨
        getLE16 bpb 11 = 4096) →
      (bpb 13 % 256 = 1 ∨ bpb 13 % 256 = 2 ∨ bpb 13 % 256 = 4 ∨ bpb 13 % 256 = 8 ∨
        bpb 13 % 256 = 16 ∨ bpb 13 % 256 = 32 ∨ bpb 13 % 256 = 64 ∨ bpb 13 % 256 = 128) →
      (fat_countofClusters bpb < 4085 → fat32_newfs bpb = none) ∧
      (4085 ≤ fat_countofClusters bpb → fat_countofClusters bpb < 65525 →
        (fat32_newfs bpb).map FatInit.bits_per_fat_entry = some 16 ∧
        (fat32_newfs bpb).map FatInit.root_dir_first_cluster =
          some ((getLE16 bpb 14 + bpb 16 % 256 * getLE16 bpb 22) % U16)) ∧
      (65525 ≤ fat_countofClusters bpb →
        (fat32_newfs bpb).map FatInit.bits_per_fat_entry = some 32 ∧
        (fat32_newfs bpb).map FatInit.root_dir_first_cluster = some (getLE32 bpb 44))) := by
  refine ⟨?_, ?_, ?_⟩
  · intro bpb h1 h2 h3 h4
    simp only [fat32_newfs]
    by_cases hsig : getLE16 bpb 510 = 43605
    · rw [if_neg (by simp [hsig]), if_pos (by tauto)]
    · rw [if_pos hsig]
  · intro bpb h1 h2 h3 h4 h5 h6 h7 h8
    simp only [fat32_newfs]
    by_cases hsig : getLE16 bpb 510 = 43605
    · rw [if_neg (by simp [hsig])]
      by_cases hbps : getLE16 bpb 11 = 512 ∨ getLE16 bpb 11 = 1024 ∨ getLE16 bpb 11 = 2048 ∨
          getLE16 bpb 11 = 4096
      · rw [if_neg (not_not_intro hbps), if_pos (by tauto)]
      · rw [if_pos hbps]
    · rw [if_pos hsig]
  · intro bpb hsig hbps hspc
    simp only [fat32_newfs]
    rw [if_neg (by simp [hsig]), if_neg (not_not_intro hbps), if_neg (not_not_intro hspc)]
    refine ⟨?_, ?_, ?_⟩
    · intro hcc
      rw [if_pos hcc]
    · intro hcc1 hcc2
      rw [if_neg (by omega)]
      simp only [Option.map_some']
      rw [if_pos hcc2, if_pos hcc2]
      exact ⟨rfl, rfl⟩
    · intro hcc
      rw [if_neg (by omega)]
      simp only [Option.map_some']
      rw [if_neg (by omega), if_neg (by omega)]
      exact ⟨rfl, rfl⟩

set_option maxRecDepth 8000 in
/-- C6 witness: the demo FAT32 BPB (98968 clusters) mounts as FAT32 with
root cluster 2, the demo FAT16 BPB (32749 clusters) mounts as FAT16 with
root sector 36, and an all-zero BPB is rejected. -/
theorem claim_C6_witness :
    (fat32_newfs bpb32demo).map FatInit.bits_per_fat_entry = some 32 ∧
    (fat32_newfs bpb32demo).map FatInit.root_dir_first_cluster = some (getLE32 bpb32demo 44) ∧
    (fat32_newfs bpb16demo).map FatInit.bits_per_fat_entry = some 16 ∧
    (fat32_newfs bpb16demo).map FatInit.root_dir_first_cluster =
      some ((getLE16 bpb16demo 14 + bpb16demo 16 % 256 * getLE16 bpb16demo 22) % U16) ∧
    fat32_newfs (fun _ => 0) = none :=
  ⟨((claim_C6.2.2 bpb32demo (by decide) (by decide) (by decide)).2.2 (by decide)).1,
   ((claim_C6.2.2 bpb32demo (by decide) (by decide) (by decide)).2.2 (by decide)).2,
   ((claim_C6.2.2 bpb16demo (by decide) (by decide) (by decide)).2.1 (by decide) (by decide)).1,
   ((claim_C6.2.2 bpb16demo (by decide) (by decide) (by decide)).2.1 (by decide) (by decide)).2,
   claim_C6.1 (fun _ => 0) (by decide) (by decide) (by decide) (by decide)⟩

/-- C7 (amended): a long filename is attached to the terminating
short-name entry only if assembly is still good — which requires the
checksum byte recorded from the most recent bit-6-flagged (first
physical) fragment to equal the 8.3 checksum of the terminating entry —
and otherwise the returned long name is emptied (short name only).  The
checksum bytes of the non-flagged fragments are never compared. -/
theorem claim_C7 (entries : List Entry) (st : LfnState) (e : Entry) (ln : List Nat)
    (ck : Nat) (good : Bool)
    (h : getNextCompleteEntry entries st = some (e, ln, ck, good)) :
    (List.headD ln 0 ≠ 0 → good = true ∧ ck = lfn_checksum e) ∧
    (good = false → List.headD ln 0 = 0) := by
  induction entries generalizing st with
  | nil => simp [getNextCompleteEntry] at h
  | cons e0 rest ih =>
      rw [getNextCompleteEntry] at h
      by_cases h0 : entryByte e0 0 = 0
      · rw [if_pos h0] at h
        exact absurd h (by simp)
      · rw [if_neg h0] at h
        by_cases h5 : entryByte e0 0 = 229
        · rw [if_pos h5] at h
          exact ih st h
        · rw [if_neg h5] at h
          by_cases hlfn : entryByte e0 11 = 15
          · rw [if_pos hlfn] at h
            exact ih (lfnStep e0 st) h
          · rw [if_neg hlfn] at h
            by_cases hterm : st.namegood = false ∨ st.chksum ≠ lfn_checksum e0
            · rw [if_pos hterm] at h
              simp only [Option.some.injEq, Prod.mk.injEq] at h
              obtain ⟨he, hln, hck, hgood⟩ := h
              constructor
              · intro hhd
                rw [← hln] at hhd
                exact absurd (headD_set_zero st.longname) hhd
              · intro _
                rw [← hln]
                exact headD_set_zero st.longname
            · rw [if_neg hterm] at h
              push_neg at hterm
              simp only [Option.some.injEq, Prod.mk.injEq] at h
              obtain ⟨he, hln, hck, hgood⟩ := h
              constructor
              · intro hhd
                refine ⟨hgood.symm, ?_⟩
                rw [← hck, ← he]
                exact hterm.2
              · intro hgf
                rw [← hgood] at hgf
                exact absurd hgf (by simp)

set_option maxRecDepth 20000 in
/-- C7 counterexample: the directory group (first-physical fragment with
sequence byte 0x42 and checksum byte 58; middle fragment with sequence
byte 0x01 and checksum byte 99; short entry whose 8.3 checksum is 58)
gets the full long name attached even though the middle fragment's
checksum byte 99 disagrees with the short entry's checksum, and even
though the flagged fragment encodes the code points 0x0000 and 0xFFFF,
which lie outside the printable ASCII range; the claim's 'every
fragment's checksum matches and every code point is printable ASCII'
condition is therefore not necessary for attachment. -/
theorem claim_C7_counterexample :
    (getNextCompleteEntry [lfnFrag2C7, lfnFrag1C7, shortEntryC7] lfnStart).map
        (fun r => (List.headD r.2.1 0, r.2.2.2)) = some (97, true) ∧
    entryByte lfnFrag1C7 13 ≠ lfn_checksum shortEntryC7 ∧
    entryByte lfnFrag2C7 9 + entryByte lfnFrag2C7 10 * 256 = 65535 := by
  decide

set_option maxRecDepth 20000 in
/-- C7 witness: a lone short entry with no preceding fragments falls
back to an empty long name, and the same group as the counterexample
with the matching checksum byte 58 on every fragment attaches the
assembled name, with the recorded checksum equal to the terminating
entry's 8.3 checksum. -/
theorem claim_C7_witness :
    List.headD (List.set (List.replicate 256 0) 0 0) 0 = 0 ∧
    (true = true ∧
      (58 : Nat) = lfn_checksum shortEntryC7) :=
  ⟨(claim_C7 [shortEntryC7] lfnStart shortEntryC7 (List.set (List.replicate 256 0) 0 0) 0 false
      (by decide)).2 rfl,
   (claim_C7 [lfnFrag2C7, lfnFrag1good, shortEntryC7] lfnStart shortEntryC7
      ([97, 98, 99, 100, 101, 102, 103, 104, 105, 106, 107, 108, 109, 110, 111, 112] ++
        List.replicate 240 0) 58 true (by decide)).1 (by decide)⟩

/-- `find?` returns the unique satisfying element of a list. -/
theorem find?_eq_some_of_unique {l : List Nat} {p : Nat → Bool} {a : Nat}
    (ha : a ∈ l) (hpa : p a = true) (huniq : ∀ b ∈ l, p b = true → b = a) :
    l.find? p = some a := by
  induction l with
  | nil => cases ha
  | cons x t ih =>
      by_cases hp : p x = true
      · rw [List.find?_cons_of_pos _ hp, huniq x (List.mem_cons_self x t) hp]
      · rw [List.find?_cons_of_neg _ (by simpa using hp)]
        apply ih
        · cases List.mem_cons.mp ha with
          | inl he => exact absurd (he ▸ hpa) hp
          | inr ht => exact ht
        · intro b hb hpb
          exact huniq b (List.mem_cons_of_mem x hb) hpb

/-- The LRU scan stays inside the slot range. -/
theorem lru_scan_lt (tick : Nat → Nat) : lru_scan tick < CACHE_NUMBLOCKS := by
  rw [lru_scan]
  have h : ∀ (l : List Nat) (b : Nat), b < CACHE_NUMBLOCKS →
      (∀ x ∈ l, x < CACHE_NUMBLOCKS) →
      l.foldl (fun best i => if tick i < tick best then i else best) b < CACHE_NUMBLOCKS := by
    intro l
    induction l with
    | nil => intro b hb _; exact hb
    | cons x t ih =>
        intro b hb hl
        rw [List.foldl_cons]
        apply ih
        · by_cases hx : tick x < tick b
          · rw [if_pos hx]; exact hl x (List.mem_cons_self x t)
          · rw [if_neg hx]; exact hb
        · intro y hy; exact hl y (List.mem_cons_of_mem x hy)
  apply h
  · rw [CACHE_NUMBLOCKS]; omega
  · intro x hx; exact List.mem_range.mp hx

/-- The slot picked by the LRU scan holds a tick no larger than any
slot's. -/
theorem lru_scan_min (tick : Nat → Nat) :
    ∀ j, j < CACHE_NUMBLOCKS → tick (lru_scan tick) ≤ tick j := by
  have h : ∀ (l : List Nat) (b : Nat),
      tick (l.foldl (fun best i => if tick i < tick best then i else best) b) ≤ tick b ∧
      ∀ x ∈ l, tick (l.foldl (fun best i => if tick i < tick best then i else best) b) ≤ tick x := by
    intro l
    induction l with
    | nil => intro b; exact ⟨Nat.le_refl _, by intro x hx; cases hx⟩
    | cons x t ih =>
        intro b
        rw [List.foldl_cons]
        by_cases hx : tick x < tick b
        · rw [if_pos hx]
          refine ⟨Nat.le_trans (ih x).1 (Nat.le_of_lt hx), ?_⟩
          intro y hy
          cases List.mem_cons.mp hy with
          | inl he => exact he ▸ (ih x).1
          | inr ht => exact (ih x).2 y ht
        · rw [if_neg hx]
          refine ⟨(ih b).1, ?_⟩
          intro y hy
          cases List.mem_cons.mp hy with
          | inl he => exact he ▸ Nat.le_trans (ih b).1 (Nat.le_of_not_lt hx)
          | inr ht => exact (ih b).2 y ht
  intro j hj
  exact (h (List.range CACHE_NUMBLOCKS) 0).2 j (List.mem_range.mpr hj)

/-- A cache hit: the slot holds the sector, the index is in range, and
the state change is exactly the tick refresh. -/
theorem find_some_spec (sector : Nat) (st st1 : AtaState) (i : Nat)
    (h : find_cache_entry sector st = (some i, st1)) :
    st.cacheaddr i = sector ∧ i < CACHE_NUMBLOCKS ∧
      st1 = { st with
              cachetick := Function.update st.cachetick i (st.cacheticks + 1)
              cacheticks := st.cacheticks + 1 } := by
  by_cases hs : sector = CACHE_SENTINEL
  · rw [find_cache_entry, if_pos hs] at h
    exact absurd h (by simp)
  · rw [find_cache_entry, if_neg hs] at h
    cases hf : (List.range CACHE_NUMBLOCKS).find? (fun j => st.cacheaddr j == sector) with
    | none => rw [hf] at h; exact absurd h (by simp)
    | some i0 =>
        rw [hf] at h
        simp only [Prod.mk.injEq, Option.some.injEq] at h
        obtain ⟨hi, hst⟩ := h
        subst hi
        refine ⟨by simpa using List.find?_some hf, ?_, hst.symm⟩
        exact List.mem_range.mp (List.mem_of_find?_eq_some hf)

/-- A miss means no slot holds the sector. -/
theorem find_none_no_slot (sector : Nat) (st st1 : AtaState)
    (hs : sector ≠ CACHE_SENTINEL)
    (h : find_cache_entry sector st = (none, st1)) :
    ∀ j, j < CACHE_NUMBLOCKS → st.cacheaddr j ≠ sector := by
  rw [find_cache_entry, if_neg hs] at h
  cases hf : (List.range CACHE_NUMBLOCKS).find? (fun j => st.cacheaddr j == sector) with
  | some i => rw [hf] at h; exact absurd h (by simp)
  | none =>
      intro j hj
      have := List.find?_eq_none.mp hf j (List.mem_range.mpr hj)
      simpa using this

/-- `find_cache_entry` never changes the address map or the data. -/
theorem find_addr_data (sector : Nat) (st : AtaState) :
    (find_cache_entry sector st).2.cacheaddr = st.cacheaddr ∧
    (find_cache_entry sector st).2.cachedata = st.cachedata := by
  rw [find_cache_entry]
  by_cases hs : sector = CACHE_SENTINEL
  · rw [if_pos hs]; exact ⟨rfl, rfl⟩
  · rw [if_neg hs]
    cases hf : (List.range CACHE_NUMBLOCKS).find? (fun j => st.cacheaddr j == sector) with
    | some i => exact ⟨rfl, rfl⟩
    | none => exact ⟨rfl, rfl⟩

/-- `create_cache_entry` on a fresh miss: the evicted slot is the LRU
scan's pick and the state change is the address/tick store. -/
theorem create_miss_spec (sector : Nat) (st : AtaState)
    (h : find_cache_entry sector st = (none, st)) :
    create_cache_entry sector st =
      (lru_scan st.cachetick,
        { st with
          cacheaddr := Function.update st.cacheaddr (lru_scan st.cachetick) sector
          cachetick := Function.update st.cachetick (lru_scan st.cachetick) st.cacheticks }) := by
  rw [create_cache_entry, h]

/-- `create_cache_entry` on a hit: the slot is reused and its address
and tick rewritten. -/
theorem create_hit_spec (sector : Nat) (st st1 : AtaState) (i : Nat)
    (h : find_cache_entry sector st = (some i, st1)) :
    create_cache_entry sector st =
      (i, { st1 with
            cacheaddr := Function.update st1.cacheaddr i sector
            cachetick := Function.update st1.cachetick i st1.cacheticks }) := by
  rw [create_cache_entry, h]

/-- Whatever branch `create_cache_entry` takes, the new address map is
the old one with the chosen slot set to the sector, the data is
untouched, and the tick counter is `find_cache_entry`'s. -/
theorem create_addr_data (sector : Nat) (st : AtaState) :
    (create_cache_entry sector st).2.cacheaddr =
      Function.update st.cacheaddr (create_cache_entry sector st).1 sector ∧
    (create_cache_entry sector st).2.cachedata = st.cachedata ∧
    (create_cache_entry sector st).2.cacheticks = (find_cache_entry sector st).2.cacheticks := by
  cases hf : find_cache_entry sector st with
  | mk fo st1 =>
      cases fo with
      | some i =>
          obtain ⟨ha, hi, hst1⟩ := find_some_spec sector st st1 i hf
          rw [create_hit_spec sector st st1 i hf]
          subst hst1
          exact ⟨rfl, rfl, rfl⟩
      | none =>
          have h0 : find_cache_entry sector st = (none, st) :=
            find_none_eq sector st (by rw [hf])
          have hst1 : st1 = st := by
            have h1 := h0
            rw [hf] at h1
            simpa using h1
          rw [create_miss_spec sector st h0, hst1]
          exact ⟨rfl, rfl, rfl⟩

/-- Uniqueness of cached addresses only depends on the address map. -/
theorem uniqueAddrs_congr (st st2 : AtaState)
    (h : ∀ i, st2.cacheaddr i = st.cacheaddr i) (hu : uniqueAddrs st) :
    uniqueAddrs st2 := by
  intro a b ha hb hne heq
  refine hu a b ha hb ?_ ?_
  · rw [← h a]; exact hne
  · rw [← h a, ← h b]; exact heq

/-- Creating a cache entry preserves address uniqueness: either the
sector already sits in the chosen slot, or it sits in no slot at all. -/
theorem create_preserves_unique (sector : Nat) (st : AtaState) (hu : uniqueAddrs st) :
    uniqueAddrs (create_cache_entry sector st).2 := by
  cases hf : find_cache_entry sector st with
  | mk fo st1 =>
      cases fo with
      | some i =>
          obtain ⟨ha, hi, hst1⟩ := find_some_spec sector st st1 i hf
          rw [create_hit_spec sector st st1 i hf]
          subst hst1
          refine uniqueAddrs_congr st _ ?_ hu
          intro x
          show Function.update st.cacheaddr i sector x = st.cacheaddr x
          rw [Function.update_apply]
          by_cases hx : x = i
          · rw [if_pos hx, hx, ha]
          · rw [if_neg hx]
      | none =>
          have h0 : find_cache_entry sector st = (none, st) :=
            find_none_eq sector st (by rw [hf])
          rw [create_miss_spec sector st h0]
          by_cases hs : sector = CACHE_SENTINEL
          · intro a b ha hb hne heq
            show a = b
            by_cases ha1 : a = lru_scan st.cachetick
            · exact absurd (by simp [ha1, Function.update_apply, hs]) hne
            · by_cases hb1 : b = lru_scan st.cachetick
              · have h3 := heq
                simp only [Function.update_apply] at h3
                rw [if_neg ha1, if_pos hb1] at h3
                have h5 := hne
                simp only [Function.update_apply] at h5
                rw [if_neg ha1] at h5
                exact absurd (by rw [h3]; exact hs) h5
              · refine hu a b ha hb ?_ ?_
                · simpa [Function.update_apply, ha1] using hne
                · have h2 := heq
                  simp only [Function.update_apply] at h2
                  rw [if_neg ha1, if_neg hb1] at h2
                  exact h2
          · have habs := find_none_no_slot sector st st hs h0
            intro a b ha hb hne heq
            simp only [Function.update_apply] at hne heq
            by_cases ha1 : a = lru_scan st.cachetick
            · by_cases hb1 : b = lru_scan st.cachetick
              · rw [ha1, hb1]
              · rw [if_pos ha1, if_neg hb1] at heq
                exact absurd heq.symm (habs b hb)
            · by_cases hb1 : b = lru_scan st.cachetick
              · rw [if_neg ha1, if_pos hb1] at heq
                exact absurd heq (habs a ha)
              · rw [if_neg ha1] at hne heq
                rw [if_neg hb1] at heq
                exact hu a b ha hb hne heq

/-- The fill loop preserves address uniqueness. -/
theorem fill_preserves_unique (disk : Nat → Nat) (sector : Nat) :
    ∀ (n dst i : Nat) (st : AtaState), uniqueAddrs st →
      uniqueAddrs (cache_fill_loop disk sector dst i st n).2 := by
  intro n
  induction n with
  | zero => intro dst i st hu; exact hu
  | succ m ih =>
      intro dst i st hu
      rw [cache_fill_loop]
      apply ih
      refine uniqueAddrs_congr (create_cache_entry i st).2 _ (fun _ => rfl) ?_
      exact create_preserves_unique i st hu

/-- `find_cache_entry` never decreases the tick counter. -/
theorem find_ticks_le (sector : Nat) (st : AtaState) :
    st.cacheticks ≤ (find_cache_entry sector st).2.cacheticks := by
  rw [find_cache_entry]
  by_cases hs : sector = CACHE_SENTINEL
  · rw [if_pos hs]
  · rw [if_neg hs]
    cases hf : (List.range CACHE_NUMBLOCKS).find? (fun j => st.cacheaddr j == sector) with
    | some i => exact Nat.le_succ _
    | none => exact Nat.le_refl _

/-- `create_cache_entry` never decreases the tick counter. -/
theorem create_ticks_le (sector : Nat) (st : AtaState) :
    st.cacheticks ≤ (create_cache_entry sector st).2.cacheticks := by
  rw [(create_addr_data sector st).2.2]
  exact find_ticks_le sector st

/-- The fill loop never decreases the tick counter. -/
theorem fill_ticks_le (disk : Nat → Nat) (sector : Nat) :
    ∀ (n dst i : Nat) (st : AtaState),
      st.cacheticks ≤ (cache_fill_loop disk sector dst i st n).2.cacheticks := by
  intro n
  induction n with
  | zero => intro dst i st; exact Nat.le_refl _
  | succ m ih =>
      intro dst i st
      rw [cache_fill_loop]
      refine Nat.le_trans (create_ticks_le i st) ?_
      exact ih (if i = sector then disk i else dst) (i + 1)
        { (create_cache_entry i st).2 with
          cachedata := Function.update (create_cache_entry i st).2.cachedata
            (create_cache_entry i st).1 (disk i) }

/-- A successful read preserves address uniqueness. -/
theorem readblock2_preserves_unique (disk : Nat → Nat) (cfg : AtaCfg) (dst sector : Nat)
    (useCache : Bool) (st : AtaState) (r : ReadResult)
    (h : ata_readblock2 disk cfg dst sector useCache st = some r)
    (hu : uniqueAddrs st) : uniqueAddrs r.st := by
  cases useCache with
  | false =>
      rw [ata_readblock2, if_neg (by simp)] at h
      by_cases hl : cfg.lba48 = false ∧ 268435455 < sector
      · rw [ata_readblock2_hw, if_pos hl] at h
        exact Option.noConfusion h
      · rw [hw_eval_uncached disk cfg dst sector st hl] at h
        simp only [Option.some.injEq] at h
        rw [← h]
        exact hu
  | true =>
      cases hf : find_cache_entry sector st with
      | mk fo st1 =>
          cases fo with
          | some i =>
              rw [readblock2_hit disk cfg dst sector st i st1 hf] at h
              simp only [Option.some.injEq] at h
              rw [← h]
              obtain ⟨ha, hi, hst1⟩ := find_some_spec sector st st1 i hf
              subst hst1
              exact uniqueAddrs_congr st _ (fun _ => rfl) hu
          | none =>
              have h0 : find_cache_entry sector st = (none, st) :=
                find_none_eq sector st (by rw [hf])
              rw [readblock2_miss disk cfg dst sector st st h0] at h
              by_cases hl : cfg.lba48 = false ∧ 268435455 < sector
              · rw [ata_readblock2_hw, if_pos hl] at h
                exact Option.noConfusion h
              · rw [hw_eval_cached disk cfg dst sector st hl] at h
                simp only [Option.some.injEq] at h
                rw [← h]
                refine uniqueAddrs_congr
                  (cache_fill_loop disk sector dst (aligned_base sector cfg.alignment_log2) st
                    (aligned_iters sector cfg.alignment_log2)).2 _ (fun _ => rfl) ?_
                exact fill_preserves_unique disk sector
                  (aligned_iters sector cfg.alignment_log2) dst
                  (aligned_base sector cfg.alignment_log2) st hu

/-- A run of cached reads preserves address uniqueness. -/
theorem runReads_unique (disk : Nat → Nat) (cfg : AtaCfg) :
    ∀ (reqs : List Nat) (st : AtaState), uniqueAddrs st →
      ∀ st2, runReads disk cfg reqs st = some st2 → uniqueAddrs st2 := by
  intro reqs
  induction reqs with
  | nil =>
      intro st hu st2 h
      rw [runReads] at h
      simp only [Option.some.injEq] at h
      rw [← h]
      exact hu
  | cons s rest ih =>
      intro st hu st2 h
      rw [runReads] at h
      cases h1 : ata_readblock2 disk cfg 0 s true st with
      | none =>
          rw [h1] at h
          exact Option.noConfusion h
      | some r =>
          rw [h1] at h
          exact ih r.st (readblock2_preserves_unique disk cfg 0 s true st r h1 hu) st2 h

/-- C4: after any sequence of cached reads from the fresh cache, at most
one slot maps to any valid sector; when a fill must evict (the sector is
in no slot), the chosen slot is the LRU scan's pick, which holds the
numerically lowest tick of all 16 slots; and the tick counter strictly
increases across every successful cached read — both hits (refresh) and
fills. -/
theorem claim_C4 :
    (∀ (disk : Nat → Nat) (cfg : AtaCfg) (reqs : List Nat),
      uniqueAddrs (runState (runReads disk cfg reqs clear_cache))) ∧
    (∀ (st : AtaState) (sector : Nat), (find_cache_entry sector st).1 = none →
      (create_cache_entry sector st).1 = lru_scan st.cachetick ∧
      ∀ j, j < CACHE_NUMBLOCKS →
        st.cachetick (lru_scan st.cachetick) ≤ st.cachetick j) ∧
    (∀ (disk : Nat → Nat) (cfg : AtaCfg) (dst sector : Nat) (st : AtaState),
      (ata_readblock2 disk cfg dst sector true st).isSome = true →
        st.cacheticks < ticksAfter (ata_readblock2 disk cfg dst sector true st) 0) := by
  have hinit : uniqueAddrs clear_cache := by
    intro a b ha hb hne heq
    exact absurd rfl hne
  refine ⟨?_, ?_, ?_⟩
  · intro disk cfg reqs
    cases hr : runReads disk cfg reqs clear_cache with
    | none => exact hinit
    | some st2 => exact runReads_unique disk cfg reqs clear_cache hinit st2 hr
  · intro st sector h
    have h0 := find_none_eq sector st h
    rw [create_miss_spec sector st h0]
    exact ⟨rfl, lru_scan_min st.cachetick⟩
  · intro disk cfg dst sector st h
    cases hf : find_cache_entry sector st with
    | mk fo st1 =>
        cases fo with
        | some i =>
            rw [readblock2_hit disk cfg dst sector st i st1 hf]
            obtain ⟨ha, hi, hst1⟩ := find_some_spec sector st st1 i hf
            show st.cacheticks < st1.cacheticks
            rw [hst1]
            exact Nat.lt_succ_self _
        | none =>
            have h0 : find_cache_entry sector st = (none, st) :=
              find_none_eq sector st (by rw [hf])
            rw [readblock2_miss disk cfg dst sector st st h0] at h ⊢
            by_cases hl : cfg.lba48 = false ∧ 268435455 < sector
            · rw [ata_readblock2_hw, if_pos hl] at h
              exact absurd h (by simp)
            · rw [hw_eval_cached disk cfg dst sector st hl]
              show st.cacheticks <
                (cache_fill_loop disk sector dst (aligned_base sector cfg.alignment_log2) st
                  (aligned_iters sector cfg.alignment_log2)).2.cacheticks + 1
              have := fill_ticks_le disk sector (aligned_iters sector cfg.alignment_log2) dst
                (aligned_base sector cfg.alignment_log2) st
              omega

/-- C4 witness: a short run of cached reads keeps addresses unique; on
the fresh cache a miss on sector 9 evicts the LRU pick (slot 0, tick 0);
and a cached read of sector 5 bumps the tick counter. -/
theorem claim_C4_witness :
    uniqueAddrs (runState (runReads (fun i => i) ⟨true, 0⟩ [5, 7, 5] clear_cache)) ∧
    ((create_cache_entry 9 clear_cache).1 = lru_scan clear_cache.cachetick ∧
      ∀ j, j < CACHE_NUMBLOCKS →
        clear_cache.cachetick (lru_scan clear_cache.cachetick) ≤ clear_cache.cachetick j) ∧
    clear_cache.cacheticks <
      ticksAfter (ata_readblock2 (fun i => i) ⟨true, 0⟩ 0 5 true clear_cache) 0 :=
  ⟨claim_C4.1 (fun i => i) ⟨true, 0⟩ [5, 7, 5],
   claim_C4.2.1 clear_cache 9 (by decide),
   claim_C4.2.2 (fun i => i) ⟨true, 0⟩ 0 5 clear_cache (by decide)⟩

/-- C3 counterexample: with `alignment_log2 = 1` and a fresh cache, a
cached read of sector 2 fills slot 0 with sector 2 and then immediately
overwrites slot 0 with sector 3 (all ticks are equal during the fill, so
the LRU scan picks slot 0 both times); the immediately following cached
read of sector 2 therefore misses and issues the hardware command
(2, 2), refuting the no-hardware-access part of the claim as stated. -/
theorem claim_C3_counterexample :
    ((ata_readblock2 (fun i => 100 + i) ⟨true, 1⟩ 0 2 true clear_cache).map
      (fun r => readCmds (ata_readblock2 (fun i => 100 + i) ⟨true, 1⟩ 0 2 true r.st))) =
        some [(2, 2)] ∧
    [((2 : Nat), (2 : Nat))] ≠ [] :=
  ⟨by decide, by decide⟩

/-- The alignment mask extracts the aligned multiple: for a uint32
sector, `sector & (2^32 - 2^k)` is `2^k * (sector / 2^k)`. -/
theorem and_mask_eq (s k : Nat) (hk : k ≤ 32) (hs : s < U32) :
    s &&& (U32 - 2 ^ k) = 2 ^ k * (s / 2 ^ k) := by
  have hU : U32 = 2 ^ 32 := by rw [U32]; norm_num
  rw [hU] at hs ⊢
  have h1 : 2 ^ k * 2 ^ (32 - k) = 2 ^ 32 := by
    rw [← pow_add]
    congr 1
    omega
  have hM : 2 ^ 32 - 2 ^ k = 2 ^ k * (2 ^ (32 - k) - 1) := by
    rw [Nat.mul_sub_one, h1]
  rw [hM]
  apply Nat.eq_of_testBit_eq
  intro i
  rw [Nat.testBit_and, Nat.testBit_mul_pow_two, Nat.testBit_mul_pow_two]
  by_cases hik : k ≤ i
  · by_cases hi32 : i < 32
    · have hbit : Nat.testBit (2 ^ (32 - k) - 1) (i - k) = true := by
        rw [Nat.testBit_two_pow_sub_one]
        simpa using (by omega : i - k < 32 - k)
      have hdiv : Nat.testBit (s / 2 ^ k) (i - k) = Nat.testBit s i := by
        rw [← Nat.shiftRight_eq_div_pow, Nat.testBit_shiftRight]
        congr 1
        omega
      rw [hbit, hdiv]
      simp [ge_iff_le, hik]
    · have hf : Nat.testBit s i = false :=
        Nat.testBit_lt_two_pow (lt_of_lt_of_le hs (Nat.pow_le_pow_right (by omega) (by omega)))
      have hf2 : Nat.testBit (s / 2 ^ k) (i - k) = false := by
        apply Nat.testBit_lt_two_pow
        have hlt : s / 2 ^ k < 2 ^ (32 - k) := by
          apply Nat.div_lt_of_lt_mul
          rw [h1]
          exact hs
        exact lt_of_lt_of_le hlt (Nat.pow_le_pow_right (by omega) (by omega))
      rw [hf, hf2]
      simp
  · simp [ge_iff_le, hik]

/-- The read base is the sector rounded down to the alignment boundary. -/
theorem aligned_base_eq (sector k : Nat) (hk : k < 16) (hs : sector < U32) :
    aligned_base sector k = 2 ^ k * (sector / 2 ^ k) := by
  rw [aligned_base, aligned_mask_eq k hk, and_mask_eq sector k (by omega) hs]

/-- The requested sector lies inside its aligned run. -/
theorem sector_in_run (sector k : Nat) (hk : k < 16) (hs : sector < U32) :
    aligned_base sector k ≤ sector ∧ sector < aligned_base sector k + 2 ^ k := by
  rw [aligned_base_eq sector k hk hs]
  have h1 := Nat.div_add_mod sector (2 ^ k)
  have h2 : sector % 2 ^ k < 2 ^ k := Nat.mod_lt sector (Nat.two_pow_pos k)
  omega

/-- Outside its range, the fill loop leaves the destination alone. -/
theorem fill_dst_of_lt (disk : Nat → Nat) (sector : Nat) :
    ∀ (n dst i : Nat) (st : AtaState), sector < i →
      (cache_fill_loop disk sector dst i st n).1 = dst := by
  intro n
  induction n with
  | zero => intro dst i st _; rfl
  | succ m ih =>
      intro dst i st hlt
      rw [cache_fill_loop]
      rw [if_neg (by omega)]
      exact ih dst (i + 1) _ (by omega)

/-- Inside its range, the fill loop delivers the requested sector's
data. -/
theorem fill_dst_in (disk : Nat → Nat) (sector : Nat) :
    ∀ (n dst i : Nat) (st : AtaState), i ≤ sector → sector < i + n →
      (cache_fill_loop disk sector dst i st n).1 = disk sector := by
  intro n
  induction n with
  | zero => intro dst i st h1 h2; omega
  | succ m ih =>
      intro dst i st h1 h2
      rw [cache_fill_loop]
      by_cases hi : i = sector
      · rw [if_pos hi, hi]
        rw [fill_dst_of_lt disk sector m (disk sector) (sector + 1) _ (by omega)]
      · rw [if_neg hi]
        exact ih dst (i + 1) _ (by omega) (by omega)

/-- The fill loop maintains that any slot holding sector `s` holds the
disk contents of `s` (the loop writes a slot's data in the same step in
which it writes its address). -/
theorem fill_P (disk : Nat → Nat) (sector s : Nat) :
    ∀ (n dst i : Nat) (st : AtaState),
      (∀ j, j < CACHE_NUMBLOCKS → st.cacheaddr j = s → st.cachedata j = disk s) →
      ∀ j, j < CACHE_NUMBLOCKS →
        (cache_fill_loop disk sector dst i st n).2.cacheaddr j = s →
        (cache_fill_loop disk sector dst i st n).2.cachedata j = disk s := by
  intro n
  induction n with
  | zero => intro dst i st hP; exact hP
  | succ m ih =>
      intro dst i st hP
      rw [cache_fill_loop]
      apply ih
      intro j hj hja
      have hcad := create_addr_data i st
      have hja2 : Function.update st.cacheaddr (create_cache_entry i st).1 i j = s := by
        rw [← hcad.1]
        exact hja
      show Function.update (create_cache_entry i st).2.cachedata
        (create_cache_entry i st).1 (disk i) j = disk s
      rw [hcad.2.1]
      rw [Function.update_apply] at hja2 ⊢
      by_cases hji : j = (create_cache_entry i st).1
      · rw [if_pos hji] at hja2 ⊢
        rw [hja2]
      · rw [if_neg hji] at hja2 ⊢
        exact hP j hj hja2

/-- The slot chosen by `create_cache_entry` is in range. -/
theorem create_idx_lt (sector : Nat) (st : AtaState) :
    (create_cache_entry sector st).1 < CACHE_NUMBLOCKS := by
  cases hf : find_cache_entry sector st with
  | mk fo st1 =>
      cases fo with
      | some i =>
          rw [create_hit_spec sector st st1 i hf]
          exact (find_some_spec sector st st1 i hf).2.1
      | none =>
          have h0 : find_cache_entry sector st = (none, st) :=
            find_none_eq sector st (by rw [hf])
          rw [create_miss_spec sector st h0]
          exact lru_scan_lt st.cachetick

/-- The raw scan behind a cache hit. -/
theorem find_some_raw (sector : Nat) (st st1 : AtaState) (i : Nat)
    (hf : find_cache_entry sector st = (some i, st1)) :
    sector ≠ CACHE_SENTINEL ∧
      (List.range CACHE_NUMBLOCKS).find? (fun j => st.cacheaddr j == sector) = some i := by
  by_cases hs : sector = CACHE_SENTINEL
  · rw [find_cache_entry, if_pos hs] at hf
    exact absurd hf (by simp)
  · refine ⟨hs, ?_⟩
    rw [find_cache_entry, if_neg hs] at hf
    cases hff : (List.range CACHE_NUMBLOCKS).find? (fun j => st.cacheaddr j == sector) with
    | none => rw [hff] at hf; exact absurd hf (by simp)
    | some i0 =>
        rw [hff] at hf
        simp only [Prod.mk.injEq, Option.some.injEq] at hf
        rw [hf.1]

/-- A hit's tick refresh does not move the slot: looking the sector up
again hits the same slot. -/
theorem find_tick_refresh_find (sector : Nat) (st st1 : AtaState) (i : Nat)
    (hf : find_cache_entry sector st = (some i, st1)) :
    find_cache_entry sector st1 =
      (some i, { st1 with
        cachetick := Function.update st1.cachetick i (st1.cacheticks + 1)
        cacheticks := st1.cacheticks + 1 }) := by
  obtain ⟨hs, hff⟩ := find_some_raw sector st st1 i hf
  have haddr : st1.cacheaddr = st.cacheaddr := by
    have h := (find_addr_data sector st).1
    rw [hf] at h
    exact h
  rw [find_cache_entry, if_neg hs, haddr, hff]

/-- C3 (amended): a cached read immediately repeated returns
byte-identical data whenever both reads complete and the sector is not
in the topmost aligned run of the 32-bit space; but the repeat is
guaranteed to be served without a hardware command only when
`alignment_log2 = 0` — with a coarser alignment the fill of the aligned
run may evict the requested sector's own slot (see the counterexample),
so the repeat can issue another hardware read, returning the same data
from the drive. -/
theorem claim_C3 (disk : Nat → Nat) (cfg : AtaCfg) (dst dst2 sector : Nat) (st : AtaState)
    (hk : cfg.alignment_log2 < 16)
    (hns : sector + 2 ^ cfg.alignment_log2 < U32) :
    ∀ q ∈ twoReads disk cfg dst dst2 sector st,
      q.2.2.1 = q.1 ∧ (cfg.alignment_log2 = 0 → q.2.2.2 = []) := by
  have hp1 : 1 ≤ 2 ^ cfg.alignment_log2 := Nat.one_le_two_pow
  have hsU : sector < U32 := by omega
  have hsl : CACHE_SENTINEL + 1 = U32 := by rw [CACHE_SENTINEL, U32]
  have hsent : sector ≠ CACHE_SENTINEL := by omega
  have hble : aligned_base sector cfg.alignment_log2 ≤ sector := by
    rw [aligned_base]
    exact Nat.and_le_left
  have hiters : aligned_iters sector cfg.alignment_log2 = 2 ^ cfg.alignment_log2 := by
    rw [aligned_iters, aligned_read_size_eq _ hk, if_neg (by omega)]
  have hrun := sector_in_run sector cfg.alignment_log2 hk hsU
  intro q hq
  rw [Option.mem_def, twoReads] at hq
  cases h1 : ata_readblock2 disk cfg dst sector true st with
  | none =>
      rw [h1] at hq
      exact Option.noConfusion hq
  | some r =>
      rw [h1] at hq
      have hq1 : (match ata_readblock2 disk cfg dst2 sector true r.st with
          | none => none
          | some r2 => some (r.dst, r.cmds, r2.dst, r2.cmds)) = some q := hq
      cases h2 : ata_readblock2 disk cfg dst2 sector true r.st with
      | none =>
          rw [h2] at hq1
          exact Option.noConfusion hq1
      | some r2 =>
          rw [h2] at hq1
          have hq2 : some (r.dst, r.cmds, r2.dst, r2.cmds) = some q := hq1
          have hq3 : (r.dst, r.cmds, r2.dst, r2.cmds) = q := by
            simpa using hq2
          rw [← hq3]
          show r2.dst = r.dst ∧ (cfg.alignment_log2 = 0 → r2.cmds = [])
          cases hf : find_cache_entry sector st with
          | mk fo st1 =>
              cases fo with
              | some i =>
                  rw [readblock2_hit disk cfg dst sector st i st1 hf] at h1
                  have hr := Option.some.inj h1
                  have hsecond := find_tick_refresh_find sector st st1 i hf
                  rw [← hr] at h2
                  rw [readblock2_hit disk cfg dst2 sector st1 i _ hsecond] at h2
                  have hr2 := Option.some.inj h2
                  rw [← hr, ← hr2]
                  exact ⟨rfl, fun _ => rfl⟩
              | none =>
                  have h0 : find_cache_entry sector st = (none, st) :=
                    find_none_eq sector st (by rw [hf])
                  rw [readblock2_miss disk cfg dst sector st st h0] at h1
                  by_cases hl : cfg.lba48 = false ∧ 268435455 < sector
                  · rw [ata_readblock2_hw, if_pos hl] at h1
                    exact Option.noConfusion h1
                  · rw [hw_eval_cached disk cfg dst sector st hl] at h1
                    have hr := Option.some.inj h1
                    have habs := find_none_no_slot sector st st hsent h0
                    have hrdst : r.dst = disk sector := by
                      rw [← hr]
                      exact fill_dst_in disk sector (aligned_iters sector cfg.alignment_log2)
                        dst (aligned_base sector cfg.alignment_log2) st hble
                        (by rw [hiters]; exact hrun.2)
                    have hP : ∀ j, j < CACHE_NUMBLOCKS → r.st.cacheaddr j = sector →
                        r.st.cachedata j = disk sector := by
                      rw [← hr]
                      exact fill_P disk sector sector
                        (aligned_iters sector cfg.alignment_log2) dst
                        (aligned_base sector cfg.alignment_log2) st
                        (fun j hj hja => absurd hja (habs j hj))
                    cases hf2 : find_cache_entry sector r.st with
                    | mk fo2 st2 =>
                        cases fo2 with
                        | some i2 =>
                            obtain ⟨ha2, hi2, hst2⟩ := find_some_spec sector r.st st2 i2 hf2
                            rw [readblock2_hit disk cfg dst2 sector r.st i2 st2 hf2] at h2
                            have hr2 := Option.some.inj h2
                            constructor
                            · rw [← hr2]
                              show st2.cachedata i2 = r.dst
                              rw [hst2]
                              show r.st.cachedata i2 = r.dst
                              rw [hP i2 hi2 ha2, hrdst]
                            · intro _
                              rw [← hr2]
                        | none =>
                            have h02 : find_cache_entry sector r.st = (none, r.st) :=
                              find_none_eq sector r.st (by rw [hf2])
                            rw [readblock2_miss disk cfg dst2 sector r.st r.st h02] at h2
                            rw [hw_eval_cached disk cfg dst2 sector r.st hl] at h2
                            have hr2 := Option.some.inj h2
                            constructor
                            · rw [← hr2]
                              show (cache_fill_loop disk sector dst2
                                  (aligned_base sector cfg.alignment_log2) r.st
                                  (aligned_iters sector cfg.alignment_log2)).1 = r.dst
                              rw [fill_dst_in disk sector (aligned_iters sector cfg.alignment_log2)
                                  dst2 (aligned_base sector cfg.alignment_log2) r.st hble
                                  (by rw [hiters]; exact hrun.2), hrdst]
                            · intro hk0
                              exfalso
                              have hone : aligned_iters sector cfg.alignment_log2 = 1 := by
                                rw [hiters, hk0]
                                exact pow_zero 2
                              have hbase : aligned_base sector cfg.alignment_log2 = sector := by
                                rw [aligned_base_eq _ _ hk hsU, hk0]
                                simp
                              have haddr : r.st.cacheaddr =
                                  Function.update st.cacheaddr
                                    (create_cache_entry sector st).1 sector := by
                                rw [← hr]
                                show (cache_fill_loop disk sector dst
                                    (aligned_base sector cfg.alignment_log2) st
                                    (aligned_iters sector cfg.alignment_log2)).2.cacheaddr = _
                                rw [hone, hbase]
                                exact (create_addr_data sector st).1
                              have hff2 : (List.range CACHE_NUMBLOCKS).find?
                                  (fun j => r.st.cacheaddr j == sector) =
                                    some (create_cache_entry sector st).1 := by
                                apply find?_eq_some_of_unique
                                · exact List.mem_range.mpr (create_idx_lt sector st)
                                · rw [haddr]
                                  simp [Function.update_apply]
                                · intro b hb hpb
                                  rw [haddr] at hpb
                                  simp only [Function.update_apply] at hpb
                                  by_cases hbi : b = (create_cache_entry sector st).1
                                  · exact hbi
                                  · rw [if_neg hbi] at hpb
                                    exact absurd (by simpa using hpb)
                                      (habs b (List.mem_range.mp hb))
                              have hcontr := h02
                              rw [find_cache_entry, if_neg hsent, hff2] at hcontr
                              exact absurd hcontr (by simp)

/-- C3 witness: with no alignment expansion, reading sector 7 twice from
a fresh cache returns the same data twice and the second read issues no
hardware command. -/
theorem claim_C3_witness :
    ((107 : Nat), ([((7 : Nat), (1 : Nat))] : List (Nat × Nat)), (107 : Nat),
        ([] : List (Nat × Nat))).2.2.1 =
      ((107 : Nat), ([((7 : Nat), (1 : Nat))] : List (Nat × Nat)), (107 : Nat),
        ([] : List (Nat × Nat))).1 ∧
    ((⟨true, 0⟩ : AtaCfg).alignment_log2 = 0 →
      ((107 : Nat), ([((7 : Nat), (1 : Nat))] : List (Nat × Nat)), (107 : Nat),
        ([] : List (Nat × Nat))).2.2.2 = []) :=
  claim_C3 (fun i => 100 + i) ⟨true, 0⟩ 0 1 7 clear_cache (by decide) (by decide)
    (107, [(7, 1)], 107, []) (by decide)

end Ipod
